import Mathlib

/-!
# pegnet `modules/grader`: version 1 validation, averaging and grading

A shallow embedding of `modules/grader/v1_util.go`.

Conventions of the embedding.

* `float64` has two models.  In `averageV1`, `gradeV1` and the definitions around them
  a `float64` is an exact rational (`ℚ`): the properties proved there are about which
  values are added, subtracted, divided and compared, and every division the code
  performs on a reachable path has a non-zero divisor.  In `IEEE.averageV1` and
  `IEEE.gradeV1` a `float64` is an IEEE 754 binary64 value (`F64`), with rounding to
  nearest even, overflow to an infinity, underflow through the subnormals to zero,
  signed zeros and NaN: the properties whose truth depends on these (the sign of the
  grade, the zero entries of the average, when two quotients agree) are settled there.
* A Go slice is a `List`, a byte is a `Fin 256`, a Go `map[string]float64` is an
  association list read with `List.lookup`.
* A run-time panic (index out of range, nil dereference) is the outer `none` of an
  `Option`.
* A pointer that may be nil is an `Option`.
* What the file uses from elsewhere (the asset schema `opr.V1Assets`, the method
  `GetOrderedAssets`, the winner checks, SHA-256 and the JSON scanner/decoder) is
  collected in `Env`, a parameter of the definitions that use it; in the binary64
  model the list `GetOrderedAssets` returns is a field of the record.
-/

namespace Grader

/-- One octet of a Go `[]byte`. -/
abbrev Byte := Fin 256

/-- The element type of what `GetOrderedAssets` returns: only `Value` is read by
the code, `Name` is kept for the position's asset code. -/
structure Asset where
  Name : String
  Value : ℚ
deriving DecidableEq, Repr

/-- The decoded content `opr.V1Content`, with the three fields the grader reads; the
`int32` height is an integer, compared with the caller's height only. -/
structure V1Content where
  Dbht : Int
  Assets : List (String × ℚ)
  WinPreviousOPR : List String
deriving DecidableEq, Repr

/-- The record `GradingOPR`, with the fields `v1_util.go` reads or writes.  The field
`OPR` holds the content the Go pointer refers to: the cohort functions are modelled on
records whose `OPR` is not nil, as `ValidateV1` builds them. -/
structure GradingOPR where
  EntryHash : List Byte
  Nonce : List Byte
  SelfReportedDifficulty : Nat
  OPRHash : List Byte
  OPR : V1Content
  Grade : ℚ
deriving DecidableEq, Repr

/-- The two error kinds built by `NewValidateError` and `NewDecodeError`. -/
inductive GraderError where
  | validate (msg : String)
  | decode (msg : String)
deriving DecidableEq, Repr

/-- The constructor `NewValidateError(msg)` of a validation error. -/
def NewValidateError (msg : String) : GraderError := GraderError.validate msg

/-- The constructor `NewDecodeError(msg)` of a decode error. -/
def NewDecodeError (msg : String) : GraderError := GraderError.decode msg

/-- What `v1_util.go` takes from outside the file. -/
structure Env where
  /-- The table `opr.V1Assets`: the asset codes in canonical order. -/
  V1Assets : List String
  /-- The method `(*opr.V1Content).GetOrderedAssets`. -/
  GetOrderedAssets : V1Content → List Asset
  /-- The helper `verifyWinnerFormat(list, n)`. -/
  verifyWinnerFormat : List String → Nat → Bool
  /-- The helper `verifyWinners(claimed, authoritative)`. -/
  verifyWinners : List String → List String → Bool
  /-- The digest `sha256.Sum256`. -/
  sha256 : List Byte → List Byte
  /-- The syntax scan at the start of `json.Unmarshal`: `some msg` when the data is
  not well-formed JSON. -/
  jsonCheckValid : List Byte → Option String
  /-- The decoding of well-formed JSON into an allocated `V1Content`. -/
  jsonDecode : List Byte → V1Content → Except String V1Content

/-- The pair `(*GradingOPR, error)` a call of `ValidateV1` returns. -/
abbrev Ret := Option GradingOPR × Option GraderError

/-- The statement `return nil, err`. -/
def retErr (e : GraderError) : Option Ret := some (none, some e)

/-- The statement `return gopr, nil`. -/
def retOk (g : GradingOPR) : Option Ret := some (some g, none)

/-- The message of `json.InvalidUnmarshalError` for a nil `*opr.V1Content`. -/
def invalidUnmarshalMsg : String := "json: Unmarshal(nil *opr.V1Content)"

/-- The call `json.Unmarshal(data, v)` for `v` of type `*opr.V1Content`: the error it
returns and the pointee of `v` afterwards.  The data is scanned first; then a nil `v`
is refused with an `InvalidUnmarshalError`; only a non-nil `v` is decoded into.  The
pointer itself is passed by value, so a nil `v` is still nil after the call. -/
def jsonUnmarshal (E : Env) (data : List Byte) (v : Option V1Content) :
    Option String × Option V1Content :=
  match E.jsonCheckValid data with
  | some msg => (some msg, v)
  | none =>
    match v with
    | none => (some invalidUnmarshalMsg, none)
    | some d =>
      match E.jsonDecode data d with
      | Except.error msg => (some msg, some d)
      | Except.ok d' => (none, some d')

/-- The function `binary.BigEndian.Uint64(b)`: panics when `b` has fewer than 8 bytes,
otherwise or-s the first eight bytes shifted into place. -/
def bigEndianUint64 (b : List Byte) : Option Nat :=
  match b with
  | b0 :: b1 :: b2 :: b3 :: b4 :: b5 :: b6 :: b7 :: _ =>
    some ((b7.val ||| b6.val <<< 8 ||| b5.val <<< 16 ||| b4.val <<< 24 |||
      b3.val <<< 32 ||| b2.val <<< 40 ||| b1.val <<< 48 ||| b0.val <<< 56) % 2 ^ 64)
  | _ => none

/-- The loop `for _, code := range opr.V1Assets` of `ValidateV1` (lines 39-45), run on
the remaining codes: the error of the first failing code, or `none`. -/
def verifyAssets (dec : V1Content) : List String → Option GraderError
  | [] => none
  | code :: rest =>
    match dec.Assets.lookup code with
    | none => some (NewValidateError "asset list is not correct")
    | some v =>
      if code ≠ "PNT" ∧ v = 0 then
        some (NewValidateError "all values other than PNT must be nonzero")
      else verifyAssets dec rest

/-- Lines 34-65 of `ValidateV1`: what the function does once `dec` points to a decoded
content `d`. -/
def validateDecoded (E : Env) (entryhash : List Byte) (extids : List (List Byte))
    (height : Int) (winners : List String) (content : List Byte) (d : V1Content) :
    Option Ret :=
  if d.Dbht ≠ height then retErr (NewValidateError "invalid height")
  else
    match verifyAssets d E.V1Assets with
    | some e => retErr e
    | none =>
      if E.verifyWinnerFormat d.WinPreviousOPR 10 = false then
        retErr (NewValidateError "invalid list of previous winners")
      else if E.verifyWinners d.WinPreviousOPR winners = false then
        retErr (NewValidateError "incorrect set of previous winners")
      else
        match extids[0]?, extids[1]? with
        | some nonce, some difficulty =>
          match bigEndianUint64 difficulty with
          | some n =>
            retOk
              { EntryHash := entryhash
                Nonce := nonce
                SelfReportedDifficulty := n
                OPRHash := E.sha256 content
                OPR := d
                Grade := 0 }
          | none => none
        | _, _ => none

/-- The function `ValidateV1`. -/
def ValidateV1 (E : Env) (entryhash : List Byte) (extids : List (List Byte))
    (height : Int) (winners : List String) (content : List Byte) : Option Ret :=
  if entryhash.length ≠ 32 then retErr (NewValidateError "invalid entry hash length")
  else if extids.length ≠ 3 then retErr (NewValidateError "invalid extid count")
  else
    match extids[2]? with
    | none => none
    | some version =>
      if version.length ≠ 1 ∨ version[0]? ≠ some 1 then
        retErr (NewValidateError "invalid version")
      else
        match extids[1]? with
        | none => none
        | some difficulty =>
          if difficulty.length ≠ 8 then
            retErr (NewValidateError "self reported difficulty must be 8 bytes")
          else
            -- var dec *opr.V1Content; err := json.Unmarshal(content, dec)
            match jsonUnmarshal E content none with
            | (some msg, _) => retErr (NewDecodeError msg)
            | (none, dec) =>
              match dec with
              | none => none -- dec.Dbht on a nil pointer
              | some d => validateDecoded E entryhash extids height winners content d

/-- The inner loop of `averageV1` (lines 74-80) from position `i` on: adds the magnitude
of each asset value to `avg[i]`; `none` when `i` is out of range for `avg`. -/
def sumAssets : List Asset → Nat → List ℚ → Option (List ℚ)
  | [], _, avg => some avg
  | asset :: rest, i, avg =>
    match avg[i]? with
    | none => none
    | some x =>
      if asset.Value ≥ 0 then sumAssets rest (i + 1) (avg.set i (x + asset.Value))
      else sumAssets rest (i + 1) (avg.set i (x - asset.Value))

/-- The outer loop of `averageV1` (lines 73-81). -/
def sumOprs (E : Env) : List GradingOPR → List ℚ → Option (List ℚ)
  | [], avg => some avg
  | o :: rest, avg =>
    match sumAssets (E.GetOrderedAssets o.OPR) 0 avg with
    | none => none
    | some avg' => sumOprs E rest avg'

/-- The function `averageV1`: `none` is a panic (empty cohort, or a record with more
assets than the first one). -/
def averageV1 (E : Env) (oprs : List GradingOPR) : Option (List ℚ) :=
  match oprs with
  | [] => none -- oprs[0]
  | o0 :: _ =>
    match sumOprs E oprs (List.replicate (E.GetOrderedAssets o0.OPR).length 0) with
    | none => none
    | some avg =>
      let total : ℚ := (avg.length : ℚ)
      some (avg.map fun x => x / total)

/-- The loop of `gradeV1` (lines 99-104) from position `i` on, with `g` the value of
`opr.Grade` so far; `none` when `i` is out of range for `avg`. -/
def gradeLoop : List Asset → Nat → List ℚ → ℚ → Option ℚ
  | [], _, _, g => some g
  | asset :: rest, i, avg, g =>
    match avg[i]? with
    | none => none
    | some a =>
      if a > 0 then
        let d := (asset.Value - a) / a
        gradeLoop rest (i + 1) avg (g + d * d * d * d)
      else gradeLoop rest (i + 1) avg g

/-- The function `gradeV1`: the returned grade together with the record after the call
(`opr.Grade` is reset to 0 and then accumulated into). -/
def gradeV1 (E : Env) (avg : List ℚ) (opr : GradingOPR) : Option (ℚ × GradingOPR) :=
  match gradeLoop (E.GetOrderedAssets opr.OPR) 0 avg 0 with
  | none => none
  | some g => some (g, { opr with Grade := g })

/-- The projection of a content's asset map on a list of codes, in that order, a
missing code reading as 0 (the zero value of a Go map lookup). -/
def orderedBy (codes : List String) (c : V1Content) : List Asset :=
  codes.map fun code => { Name := code, Value := (c.Assets.lookup code).getD 0 }

/-- The magnitudes `averageV1` adds for one record: the absolute values of its ordered
asset values. -/
def magnitudes (E : Env) (o : GradingOPR) : List ℚ :=
  (E.GetOrderedAssets o.OPR).map fun a => |a.Value|

/-- The sum `averageV1` accumulates at asset position `i`: the absolute values of what
the cohort's records have there. -/
def magnitudeSum (E : Env) (oprs : List GradingOPR) (i : Nat) : ℚ :=
  (oprs.map fun o => |((E.GetOrderedAssets o.OPR).map Asset.Value).getD i 0|).sum

/-- The mean magnitude of the spec (section 4.3): at every asset position of the first
record, the sum over the cohort of the absolute value of the record's value there,
divided by the cohort size. -/
def meanMagnitude (E : Env) (oprs : List GradingOPR) : List ℚ :=
  match oprs with
  | [] => []
  | o0 :: _ =>
    (List.range (E.GetOrderedAssets o0.OPR).length).map fun i =>
      (oprs.map fun o => |((E.GetOrderedAssets o.OPR).map Asset.Value).getD i 0|).sum /
        (oprs.length : ℚ)

/-- The quartic deviation of the spec (section 4.4): the sum, over the positions `i` of
`values` with `avg[i] > 0`, of `((values[i] - avg[i]) / avg[i]) ^ 4`. -/
def quarticDeviation (avg values : List ℚ) : ℚ :=
  ∑ i in (Finset.range values.length).filter (fun i => 0 < avg.getD i 0),
    ((values.getD i 0 - avg.getD i 0) / avg.getD i 0) ^ 4

/-- An ordered asset list with the value at position `i` replaced by its negation. -/
def negateAt : Nat → List Asset → List Asset
  | _, [] => []
  | 0, a :: rest => { a with Value := -a.Value } :: rest
  | i + 1, a :: rest => a :: negateAt i rest

/-- A small environment on which the definitions are evaluated at concrete inputs: the
given asset codes, `GetOrderedAssets` as the projection on them, a winner list checked
by length and by equality, every byte string well-formed JSON, and the first 32 bytes
standing in for the digest. -/
def sampleEnv (codes : List String) : Env where
  V1Assets := codes
  GetOrderedAssets := orderedBy codes
  verifyWinnerFormat := fun l n => l.length == n
  verifyWinners := fun l w => l == w
  sha256 := fun data => data.take 32
  jsonCheckValid := fun _ => none
  jsonDecode := fun _ d => Except.ok d

/-- A decoded content at height 1 with the given asset map and ten winners `w`. -/
def sampleContent (assets : List (String × ℚ)) : V1Content :=
  { Dbht := 1, Assets := assets, WinPreviousOPR := List.replicate 10 "w" }

/-- A record with the given asset map, as a cohort member. -/
def sampleOpr (assets : List (String × ℚ)) : GradingOPR :=
  { EntryHash := List.replicate 32 0
    Nonce := []
    SelfReportedDifficulty := 0
    OPRHash := []
    OPR := sampleContent assets
    Grade := 0 }

/-- The bytes of a JSON object with height 1, the asset PNT at 1 and the asset USD at
0, as an entry's raw content. -/
def sampleJson : List Byte :=
  "\x7b\"dbht\":1,\"assets\":\x7b\"PNT\":1,\"USD\":0\x7d,\"winners\":[]\x7d".toList.map
    fun c => Fin.ofNat c.toNat

/-- The record lines 55-65 of `ValidateV1` build from a 32-byte zero entry hash, the
nonce `[9]`, the difficulty bytes `00 00 00 00 00 00 01 02`, the content `sampleJson`
and the decoded content `sampleContent assets`. -/
def sampleRecord (assets : List (String × ℚ)) : GradingOPR :=
  { EntryHash := List.replicate 32 0
    Nonce := [9]
    SelfReportedDifficulty := 258
    OPRHash := (sampleEnv ["PNT", "USD"]).sha256 sampleJson
    OPR := sampleContent assets
    Grade := 0 }

/-- The bytes of a JSON object with height 1, the asset PNT at 1, the asset USD at 2
and ten winners `w`: a content with exactly the codes of the schema `["PNT", "USD"]`,
none of them 0. -/
def sampleJsonNonzero : List Byte :=
  ("\x7b\"dbht\":1,\"assets\":\x7b\"PNT\":1,\"USD\":2\x7d,\"winners\":" ++
    "[\"w\",\"w\",\"w\",\"w\",\"w\",\"w\",\"w\",\"w\",\"w\",\"w\"]\x7d").toList.map
    fun c => Fin.ofNat c.toNat

/-! ## IEEE 754 binary64, the `float64` of the code -/

/-- A `float64` value: NaN, an infinity with its sign, or `(-1) ^ neg * m * 2 ^ e`.  The
values the operations below produce have `m < 2 ^ 53` and `-1074 ≤ e ≤ 971`; zero is
`m = 0` and keeps its sign. -/
inductive F64 where
  | nan
  | inf (neg : Bool)
  | fin (neg : Bool) (m : Nat) (e : Int)
deriving DecidableEq, Repr

namespace F64

/-- The value `+0`, what `make([]float64, n)` fills a slice with. -/
def zero : F64 := fin false 0 (-1074)

/-- The position of the highest set bit of `n`, found in at most `fuel` steps that drop
one bit, or 64 bits when `n` has more than 64. -/
def log2Fuel : Nat → Nat → Nat
  | 0, _ => 0
  | fuel + 1, n =>
    if n < 2 then 0
    else if n < 2 ^ 64 then log2Fuel fuel (n / 2) + 1
    else log2Fuel fuel (n / 2 ^ 64) + 64

/-- The integer part of the binary logarithm of `n ≥ 1`. -/
def ilog2 (n : Nat) : Nat := log2Fuel n n

/-- The integer part of the binary logarithm of the fraction `num / den`. -/
def floorLog2 (num den : Nat) : Int :=
  if den * 2 ^ ilog2 num ≤ num * 2 ^ ilog2 den then (ilog2 num : Int) - (ilog2 den : Int)
  else (ilog2 num : Int) - (ilog2 den : Int) - 1

/-- The integer nearest to `n / d`, a tie going to the even neighbour. -/
def roundHalfEven (n d : Nat) : Nat :=
  if 2 * (n % d) < d then n / d
  else if d < 2 * (n % d) then n / d + 1
  else if n / d % 2 = 0 then n / d
  else n / d + 1

/-- The `float64` nearest to `(-1) ^ neg * (num / den) * 2 ^ x`, ties to even: a
53-bit significand at the exponent of the value, or at the least exponent `-1074` for
a subnormal result; a value past the largest finite one becomes an infinity and a value
of at most `2 ^ (-1075)` becomes zero. -/
def round (neg : Bool) (num den : Nat) (x : Int) : F64 :=
  if num = 0 then fin neg 0 (-1074)
  else
    let s : Int := max (floorLog2 num den + x - 52) (-1074)
    let m := roundHalfEven (num * 2 ^ (x - s).toNat) (den * 2 ^ (s - x).toNat)
    if m = 2 ^ 53 then
      if 971 < s + 1 then inf neg else fin neg (2 ^ 52) (s + 1)
    else if 971 < s then inf neg
    else fin neg m s

/-- The integer `(-1) ^ neg * m`. -/
def signed (neg : Bool) (m : Nat) : Int := if neg then -(m : Int) else (m : Int)

/-- The operator `+` on `float64`: the exact sum, rounded; an exact sum of 0 is `+0`
unless both operands are `-0`. -/
def add : F64 → F64 → F64
  | nan, _ => nan
  | _, nan => nan
  | inf a, inf b => if a = b then inf a else nan
  | inf a, fin _ _ _ => inf a
  | fin _ _ _, inf b => inf b
  | fin s1 m1 e1, fin s2 m2 e2 =>
    let e := min e1 e2
    let v : Int := signed s1 (m1 * 2 ^ (e1 - e).toNat) + signed s2 (m2 * 2 ^ (e2 - e).toNat)
    if v = 0 then fin (s1 && s2) 0 (-1074)
    else round (decide (v < 0)) v.natAbs 1 e

/-- The unary minus on `float64`. -/
def neg : F64 → F64
  | nan => nan
  | inf a => inf (!a)
  | fin s m e => fin (!s) m e

/-- The operator `-` on `float64`. -/
def sub (x y : F64) : F64 := add x (neg y)

/-- The operator `*` on `float64`. -/
def mul : F64 → F64 → F64
  | nan, _ => nan
  | _, nan => nan
  | inf a, inf b => inf (xor a b)
  | inf a, fin s m _ => if m = 0 then nan else inf (xor a s)
  | fin s m _, inf b => if m = 0 then nan else inf (xor s b)
  | fin s1 m1 e1, fin s2 m2 e2 => round (xor s1 s2) (m1 * m2) 1 (e1 + e2)

/-- The operator `/` on `float64`: `Inf / Inf` and `0 / 0` are NaN, a non-zero value
over zero is an infinity. -/
def div : F64 → F64 → F64
  | nan, _ => nan
  | _, nan => nan
  | inf _, inf _ => nan
  | inf a, fin s _ _ => inf (xor a s)
  | fin s _ _, inf b => fin (xor s b) 0 (-1074)
  | fin s1 m1 e1, fin s2 m2 e2 =>
    if m2 = 0 then (if m1 = 0 then nan else inf (xor s1 s2))
    else round (xor s1 s2) m1 m2 (e1 - e2)

/-- The comparison `x < y` on `float64`: false when either side is NaN. -/
def lt : F64 → F64 → Bool
  | nan, _ => false
  | _, nan => false
  | inf a, inf b => a && !b
  | inf a, fin _ _ _ => a
  | fin _ _ _, inf b => !b
  | fin s1 m1 e1, fin s2 m2 e2 =>
    decide (signed s1 (m1 * 2 ^ (e1 - min e1 e2).toNat) <
      signed s2 (m2 * 2 ^ (e2 - min e1 e2).toNat))

/-- The comparison `x <= y` on `float64`: false when either side is NaN. -/
def le : F64 → F64 → Bool
  | nan, _ => false
  | _, nan => false
  | inf a, inf b => a || !b
  | inf a, fin _ _ _ => a
  | fin _ _ _, inf b => !b
  | fin s1 m1 e1, fin s2 m2 e2 =>
    decide (signed s1 (m1 * 2 ^ (e1 - min e1 e2).toNat) ≤
      signed s2 (m2 * 2 ^ (e2 - min e1 e2).toNat))

/-- The conversion `float64(n)` of a non-negative `int`. -/
def ofNat (n : Nat) : F64 := round false n 1 0

/-- The `float64` a decimal literal of value `(-1) ^ neg * num / den` is read as. -/
def ofDecimal (neg : Bool) (num den : Nat) : F64 := round neg num den 0

/-- The magnitude of a `float64`. -/
def abs : F64 → F64
  | nan => nan
  | inf _ => inf false
  | fin _ m e => fin false m e

/-- The test `x == 0` on `float64`: true of `+0` and `-0` only. -/
def isZero : F64 → Bool
  | fin _ m _ => decide (m = 0)
  | _ => false

/-- The finite `float64` values: neither NaN nor an infinity, significand below
`2 ^ 53`, exponent between `-1074` and `971`.  A JSON number decodes to such a value. -/
def finite : F64 → Bool
  | fin _ m e => decide (m < 2 ^ 53 ∧ -1074 ≤ e ∧ e ≤ 971)
  | _ => false

/-- The values with a clear sign bit that are not NaN: `+Inf`, `+0` and the positive
finite values. -/
def nonNeg : F64 → Bool
  | inf neg => !neg
  | fin neg _ e => !neg && decide (-1074 ≤ e)
  | nan => false

/-- The rational number a finite `float64` stands for (0 for NaN and the infinities). -/
def toRat : F64 → ℚ
  | fin s m e => (if s then -(m : ℚ) else (m : ℚ)) * (2 : ℚ) ^ e
  | _ => 0

end F64

namespace IEEE

/-- The element type of what `GetOrderedAssets` returns, with a `float64` value. -/
structure Asset where
  Name : String
  Value : F64
deriving DecidableEq, Repr

/-- The record `GradingOPR` as `averageV1` and `gradeV1` see it: `OrderedAssets` is the
list `opr.OPR.GetOrderedAssets()` returns for the record, `Grade` the field the grader
writes. -/
structure GradingOPR where
  OrderedAssets : List Asset
  Grade : F64
deriving DecidableEq, Repr

/-- The inner loop of `averageV1` (lines 74-80) in `float64`, from position `i` on;
`none` when `i` is out of range for `avg`. -/
def sumAssets : List Asset → Nat → List F64 → Option (List F64)
  | [], _, avg => some avg
  | asset :: rest, i, avg =>
    match avg[i]? with
    | none => none
    | some x =>
      if F64.le F64.zero asset.Value then
        sumAssets rest (i + 1) (avg.set i (F64.add x asset.Value))
      else sumAssets rest (i + 1) (avg.set i (F64.sub x asset.Value))

/-- The outer loop of `averageV1` (lines 73-81) in `float64`. -/
def sumOprs : List GradingOPR → List F64 → Option (List F64)
  | [], avg => some avg
  | o :: rest, avg =>
    match sumAssets o.OrderedAssets 0 avg with
    | none => none
    | some avg' => sumOprs rest avg'

/-- The function `averageV1` in `float64`: `none` is a panic (empty cohort, or a record
with more assets than the first one). -/
def averageV1 (oprs : List GradingOPR) : Option (List F64) :=
  match oprs with
  | [] => none -- oprs[0]
  | o0 :: _ =>
    match sumOprs oprs (List.replicate o0.OrderedAssets.length F64.zero) with
    | none => none
    | some avg =>
      let total : F64 := F64.ofNat avg.length
      some (avg.map fun x => F64.div x total)

/-- The loop of `gradeV1` (lines 99-104) in `float64`, from position `i` on, with `g`
the value of `opr.Grade` so far; `none` when `i` is out of range for `avg`. -/
def gradeLoop : List Asset → Nat → List F64 → F64 → Option F64
  | [], _, _, g => some g
  | asset :: rest, i, avg, g =>
    match avg[i]? with
    | none => none
    | some a =>
      if F64.lt F64.zero a then
        let d := F64.div (F64.sub asset.Value a) a
        gradeLoop rest (i + 1) avg (F64.add g (F64.mul (F64.mul (F64.mul d d) d) d))
      else gradeLoop rest (i + 1) avg g

/-- The function `gradeV1` in `float64`: the returned grade together with the record
after the call. -/
def gradeV1 (avg : List F64) (opr : GradingOPR) : Option (F64 × GradingOPR) :=
  match gradeLoop opr.OrderedAssets 0 avg F64.zero with
  | none => none
  | some g => some (g, { opr with Grade := g })

/-- One step of the sum of `averageV1` (lines 75-79): `x + v` for `v >= 0`, else
`x - v`. -/
def accumulate (x v : F64) : F64 :=
  if F64.le F64.zero v then F64.add x v else F64.sub x v

/-- The step of `averageV1` for record `o` at position `p`; a record without an asset at
`p` leaves the sum as it is. -/
def accumulateAt (x : F64) (o : GradingOPR) (p : Nat) : F64 :=
  match o.OrderedAssets[p]? with
  | some a => accumulate x a.Value
  | none => x

/-- The value record `o` reports at asset position `i` (`+0` when it has none). -/
def valueAt (o : GradingOPR) (i : Nat) : F64 :=
  (o.OrderedAssets.map Asset.Value).getD i F64.zero

/-- The `float64` sum of the magnitudes at position `i`, added record by record in
cohort order, starting from `+0`. -/
def magnitudeSum (oprs : List GradingOPR) (i : Nat) : F64 :=
  oprs.foldl (fun x o => F64.add x (F64.abs (valueAt o i))) F64.zero

/-- The mean magnitude of the spec (section 4.3) in `float64`: at every asset position
of the first record, the sum of the magnitudes divided by the cohort size. -/
def meanMagnitude (oprs : List GradingOPR) : List F64 :=
  match oprs with
  | [] => []
  | o0 :: _ =>
    (List.range o0.OrderedAssets.length).map fun i =>
      F64.div (magnitudeSum oprs i) (F64.ofNat oprs.length)

/-- A cohort member with the given asset values. -/
def sampleOpr (values : List F64) : GradingOPR :=
  { OrderedAssets := values.map fun v => { Name := "XBT", Value := v }, Grade := F64.zero }

/-- The `float64` of the JSON number `1e308`. -/
def huge : F64 := F64.ofDecimal false (10 ^ 308) 1

/-- The `float64` of the JSON number `5e-324`, the least positive value `2 ^ (-1074)`. -/
def tiny : F64 := F64.ofDecimal false 5 (10 ^ 324)

end IEEE

/-! ## The entry validator: the checks before decoding -/

/-- C3: an entry hash whose length is not 32 makes `ValidateV1` return no record and
the validation error "invalid entry hash length", whatever the other arguments are. -/
theorem ValidateV1_entry_hash_length (E : Env) (entryhash : List Byte)
    (extids : List (List Byte)) (height : Int) (winners : List String)
    (content : List Byte) (h : entryhash.length ≠ 32) :
    ValidateV1 E entryhash extids height winners content =
      some (none, some (GraderError.validate "invalid entry hash length")) := by
  simp [ValidateV1, h, retErr, NewValidateError]

/-- C3 at a 3-byte entry hash with no `extids` at all. -/
theorem ValidateV1_entry_hash_length_witness :
    ValidateV1 (sampleEnv ["PNT", "USD"]) [1, 2, 3] [] 7 ["w"] [0] =
      some (none, some (GraderError.validate "invalid entry hash length")) :=
  ValidateV1_entry_hash_length (sampleEnv ["PNT", "USD"]) [1, 2, 3] [] 7 ["w"] [0]
    (by decide)

/-- C4: when `extids` does not have exactly 3 elements, `ValidateV1` returns no record
and a validation error (one of the first two of the check list), never a decode
error, whatever the other arguments are. -/
theorem ValidateV1_extid_count (E : Env) (entryhash : List Byte)
    (extids : List (List Byte)) (height : Int) (winners : List String)
    (content : List Byte) (h : extids.length ≠ 3) :
    ∃ msg, (msg = "invalid entry hash length" ∨ msg = "invalid extid count") ∧
      ValidateV1 E entryhash extids height winners content =
        some (none, some (GraderError.validate msg)) := by
  by_cases h32 : entryhash.length = 32
  · exact ⟨"invalid extid count", Or.inr rfl, by
      simp [ValidateV1, h32, h, retErr, NewValidateError]⟩
  · exact ⟨"invalid entry hash length", Or.inl rfl, by
      simp [ValidateV1, h32, retErr, NewValidateError]⟩

/-- C4 at a 32-byte entry hash with two `extids`. -/
theorem ValidateV1_extid_count_witness :
    ∃ msg, (msg = "invalid entry hash length" ∨ msg = "invalid extid count") ∧
      ValidateV1 (sampleEnv ["PNT", "USD"]) (List.replicate 32 0) [[], [1]] 7 ["w"] [0] =
        some (none, some (GraderError.validate msg)) :=
  ValidateV1_extid_count (sampleEnv ["PNT", "USD"]) (List.replicate 32 0) [[], [1]] 7
    ["w"] [0] (by decide)

/-- The version test of line 20 fails exactly when `extids[2]` is not the single
byte 1. -/
theorem version_test_iff (version : List Byte) :
    (version.length ≠ 1 ∨ version[0]? ≠ some 1) ↔ version ≠ [1] := by
  match version with
  | [] => simp
  | [b] => simp
  | _ :: _ :: _ => simp

/-- C5: with a 32-byte entry hash and exactly three `extids`, a version tag other than
the single byte 1 gives "invalid version" (whatever the difficulty field is), and
with the version tag right a difficulty field that is not 8 bytes long gives "self
reported difficulty must be 8 bytes"; both for every height, winner list and content. -/
theorem ValidateV1_version_then_difficulty (E : Env) (entryhash : List Byte)
    (nonce difficulty version : List Byte) (height : Int) (winners : List String)
    (content : List Byte) (h32 : entryhash.length = 32) :
    (version ≠ [1] →
      ValidateV1 E entryhash [nonce, difficulty, version] height winners content =
        some (none, some (GraderError.validate "invalid version"))) ∧
    (version = [1] → difficulty.length ≠ 8 →
      ValidateV1 E entryhash [nonce, difficulty, version] height winners content =
        some (none, some
          (GraderError.validate "self reported difficulty must be 8 bytes"))) := by
  constructor
  · intro hv
    have hv' := (version_test_iff version).mpr hv
    simp only [ValidateV1, h32]
    simp [hv', retErr, NewValidateError]
  · intro hv hd
    subst hv
    simp [ValidateV1, h32, hd, retErr, NewValidateError]

/-- C5 at a 1-byte difficulty field: with the version byte 2 the version error wins,
with the version byte 1 the difficulty error is returned. -/
theorem ValidateV1_version_then_difficulty_witness :
    ValidateV1 (sampleEnv ["PNT", "USD"]) (List.replicate 32 0) [[], [5], [2]] 7 ["w"]
        [0] =
      some (none, some (GraderError.validate "invalid version")) ∧
    ValidateV1 (sampleEnv ["PNT", "USD"]) (List.replicate 32 0) [[], [5], [1]] 7 ["w"]
        [0] =
      some (none, some
        (GraderError.validate "self reported difficulty must be 8 bytes")) :=
  ⟨(ValidateV1_version_then_difficulty (sampleEnv ["PNT", "USD"]) (List.replicate 32 0)
      [] [5] [2] 7 ["w"] [0] (by decide)).1 (by decide),
   (ValidateV1_version_then_difficulty (sampleEnv ["PNT", "USD"]) (List.replicate 32 0)
      [] [5] [1] 7 ["w"] [0] (by decide)).2 rfl (by decide)⟩

/-! ## The entry validator: after decoding -/

/-- Or-ing a value shifted left by `s` bits onto a value below `2 ^ s` adds them. -/
theorem lor_shiftLeft_of_lt (a b s : Nat) (h : a < 2 ^ s) :
    a ||| b <<< s = a + b * 2 ^ s := by
  rw [Nat.lor_comm, Nat.shiftLeft_eq, Nat.mul_comm b, ← Nat.mul_add_lt_is_or h, Nat.add_comm]

/-- On eight bytes `binary.BigEndian.Uint64` is the base-256 value, most significant
byte first. -/
theorem bigEndianUint64_eq (b0 b1 b2 b3 b4 b5 b6 b7 : Byte) :
    bigEndianUint64 [b0, b1, b2, b3, b4, b5, b6, b7] =
      some (b0.val * 256 ^ 7 + b1.val * 256 ^ 6 + b2.val * 256 ^ 5 + b3.val * 256 ^ 4 +
        b4.val * 256 ^ 3 + b5.val * 256 ^ 2 + b6.val * 256 ^ 1 + b7.val * 256 ^ 0) := by
  have h0 := b0.isLt
  have h1 := b1.isLt
  have h2 := b2.isLt
  have h3 := b3.isLt
  have h4 := b4.isLt
  have h5 := b5.isLt
  have h6 := b6.isLt
  have h7 := b7.isLt
  simp only [bigEndianUint64]
  rw [lor_shiftLeft_of_lt _ _ 8 (by omega)]
  rw [lor_shiftLeft_of_lt _ _ 16 (by omega)]
  rw [lor_shiftLeft_of_lt _ _ 24 (by omega)]
  rw [lor_shiftLeft_of_lt _ _ 32 (by omega)]
  rw [lor_shiftLeft_of_lt _ _ 40 (by omega)]
  rw [lor_shiftLeft_of_lt _ _ 48 (by omega)]
  rw [lor_shiftLeft_of_lt _ _ 56 (by omega)]
  rw [Nat.mod_eq_of_lt (by omega)]
  congr 1
  norm_num
  omega

/-- The asset loop of `ValidateV1` passes exactly when every schema code has a value in
the asset map and the value of every code other than "PNT" is nonzero. -/
theorem verifyAssets_eq_none_iff (d : V1Content) (codes : List String) :
    verifyAssets d codes = none ↔
      ∀ code ∈ codes, ∃ v, d.Assets.lookup code = some v ∧ (code ≠ "PNT" → v ≠ 0) := by
  induction codes with
  | nil => simp [verifyAssets]
  | cons code rest ih =>
    rw [verifyAssets]
    cases hl : d.Assets.lookup code with
    | none => simp [hl, NewValidateError]
    | some v =>
      by_cases hz : code ≠ "PNT" ∧ v = 0
      · simp only [hz, and_self, if_true]
        simp [hl, hz.1, hz.2, NewValidateError]
      · simp only [hz, if_false, ih]
        have hz' : code ≠ "PNT" → v ≠ 0 := fun h1 h2 => hz ⟨h1, h2⟩
        simp only [List.mem_cons, forall_eq_or_imp, hl, Option.some.injEq, exists_eq_left']
        exact ⟨fun h => ⟨hz', h⟩, fun h => h.2⟩

/-- When every schema code has a value in the asset map and some code other than "PNT"
has the value 0, the asset loop of `ValidateV1` ends with the nonzero error. -/
theorem verifyAssets_zero (d : V1Content) (codes : List String)
    (hpresent : ∀ code ∈ codes, ∃ v, d.Assets.lookup code = some v)
    (hzero : ∃ code ∈ codes, code ≠ "PNT" ∧ d.Assets.lookup code = some 0) :
    verifyAssets d codes =
      some (GraderError.validate "all values other than PNT must be nonzero") := by
  induction codes with
  | nil => simp at hzero
  | cons code rest ih =>
    rw [verifyAssets]
    obtain ⟨v, hv⟩ := hpresent code (List.mem_cons_self _ _)
    rw [hv]
    by_cases hz : code ≠ "PNT" ∧ v = 0
    · show (if code ≠ "PNT" ∧ v = 0 then _ else _) = _
      rw [if_pos hz]; rfl
    · show (if code ≠ "PNT" ∧ v = 0 then _ else _) = _
      rw [if_neg hz]
      apply ih (fun c hc => hpresent c (List.mem_cons_of_mem _ hc))
      obtain ⟨c, hc, hne, hc0⟩ := hzero
      rcases List.mem_cons.mp hc with rfl | hrest
      · rw [hv] at hc0
        exact absurd ⟨hne, Option.some.inj hc0⟩ hz
      · exact ⟨c, hrest, hne, hc0⟩

/-- A code with a value in the asset map is one of its keys. -/
theorem mem_keys_of_lookup (l : List (String × ℚ)) (code : String) (v : ℚ)
    (h : l.lookup code = some v) : code ∈ l.map Prod.fst := by
  induction l with
  | nil => simp at h
  | cons kv rest ih =>
    obtain ⟨k, x⟩ := kv
    by_cases hk : code = k
    · simp [hk]
    · have hk' : (code == k) = false := by simpa using hk
      rw [List.lookup_cons, hk'] at h
      simp only [List.map_cons, List.mem_cons]
      exact Or.inr (ih h)

/-- When lines 34-65 of `ValidateV1` return a record, every check has passed, no error
is returned with it and the record is the one built at lines 55-63. -/
theorem validateDecoded_record (E : Env) (entryhash : List Byte)
    (extids : List (List Byte)) (height : Int) (winners : List String)
    (content : List Byte) (d : V1Content) (g : GradingOPR) (e : Option GraderError)
    (hret : validateDecoded E entryhash extids height winners content d = some (some g, e)) :
    d.Dbht = height ∧ verifyAssets d E.V1Assets = none ∧
      E.verifyWinnerFormat d.WinPreviousOPR 10 = true ∧
      E.verifyWinners d.WinPreviousOPR winners = true ∧
      ∃ nonce difficulty n, extids[0]? = some nonce ∧ extids[1]? = some difficulty ∧
        bigEndianUint64 difficulty = some n ∧ e = none ∧
        g = { EntryHash := entryhash, Nonce := nonce, SelfReportedDifficulty := n,
              OPRHash := E.sha256 content, OPR := d, Grade := 0 } := by
  unfold validateDecoded at hret
  split at hret
  · simp [retErr] at hret
  · rename_i hh
    split at hret
    · simp [retErr] at hret
    · rename_i ha
      split at hret
      · simp [retErr] at hret
      · rename_i hf
        split at hret
        · simp [retErr] at hret
        · rename_i hw
          split at hret
          · rename_i nonce difficulty hn hd
            split at hret
            · rename_i n hb
              simp only [retOk, Option.some.injEq, Prod.mk.injEq] at hret
              refine ⟨by simpa using hh, ha, by simpa using hf, by simpa using hw,
                nonce, difficulty, n, hn, hd, hb, hret.2.symm, hret.1.symm⟩
            · simp at hret
          · simp at hret

/-- C7: a record returned by `ValidateV1` is built by lines 34-65, from the decoded
content `d`; whenever these lines return a record for `extids = [nonce, difficulty,
version]` with an 8-byte difficulty, its `EntryHash` is the entry hash, its `Nonce` is
`extids[0]`, its `SelfReportedDifficulty` is the sum of `difficulty[j] * 256 ^ (7 - j)`,
its `OPRHash` is the SHA-256 digest of the raw content, its `OPR` is `d` and its
`Grade` is 0. -/
theorem validateDecoded_record_fields (E : Env) (entryhash nonce difficulty version : List Byte)
    (height : Int) (winners : List String) (content : List Byte) (d : V1Content)
    (g : GradingOPR) (h8 : difficulty.length = 8)
    (hret : validateDecoded E entryhash [nonce, difficulty, version] height winners content d =
      some (some g, none)) :
    g.EntryHash = entryhash ∧ g.Nonce = nonce ∧
      g.SelfReportedDifficulty =
        ∑ j in Finset.range 8, (difficulty.getD j 0).val * 256 ^ (7 - j) ∧
      g.OPRHash = E.sha256 content ∧ g.OPR = d ∧ g.Grade = 0 := by
  obtain ⟨_, _, _, _, nonce', difficulty', n, hn, hd, hb, _, hg⟩ :=
    validateDecoded_record E entryhash _ height winners content d g none hret
  simp only [List.getElem?_cons_zero, List.getElem?_cons_succ, Option.some.injEq] at hn hd
  subst hn hd hg
  match difficulty, h8 with
  | [b0, b1, b2, b3, b4, b5, b6, b7], _ =>
    rw [bigEndianUint64_eq] at hb
    simp only [Option.some.injEq] at hb
    refine ⟨rfl, rfl, ?_, rfl, rfl, rfl⟩
    simp [Finset.sum_range_succ, ← hb]

/-- Lines 34-65 of `ValidateV1` on the sample entry: a decoded content with PNT at 0,
USD at 1 and any further assets passes every check and yields `sampleRecord`. -/
theorem sample_validateDecoded (extra : List (String × ℚ)) :
    validateDecoded (sampleEnv ["PNT", "USD"]) (List.replicate 32 0)
        [[9], [0, 0, 0, 0, 0, 0, 1, 2], [1]] 1 (List.replicate 10 "w") sampleJson
        (sampleContent (("PNT", 0) :: ("USD", 1) :: extra)) =
      some (some (sampleRecord (("PNT", 0) :: ("USD", 1) :: extra)), none) := by
  simp [validateDecoded, verifyAssets, sampleEnv, sampleContent, sampleRecord, retOk,
    bigEndianUint64, List.lookup]

/-- C7 at the sample entry: the difficulty bytes `00 00 00 00 00 00 01 02` give 258. -/
theorem validateDecoded_record_fields_witness :
    (sampleRecord [("PNT", 0), ("USD", 1)]).EntryHash = List.replicate 32 0 ∧
      (sampleRecord [("PNT", 0), ("USD", 1)]).Nonce = [9] ∧
      (sampleRecord [("PNT", 0), ("USD", 1)]).SelfReportedDifficulty =
        ∑ j in Finset.range 8,
          (([0, 0, 0, 0, 0, 0, 1, 2] : List Byte).getD j 0).val * 256 ^ (7 - j) ∧
      (sampleRecord [("PNT", 0), ("USD", 1)]).OPRHash =
        (sampleEnv ["PNT", "USD"]).sha256 sampleJson ∧
      (sampleRecord [("PNT", 0), ("USD", 1)]).OPR = sampleContent [("PNT", 0), ("USD", 1)] ∧
      (sampleRecord [("PNT", 0), ("USD", 1)]).Grade = 0 :=
  validateDecoded_record_fields (sampleEnv ["PNT", "USD"]) (List.replicate 32 0) [9]
    [0, 0, 0, 0, 0, 0, 1, 2] [1] 1 (List.replicate 10 "w") sampleJson
    (sampleContent [("PNT", 0), ("USD", 1)]) (sampleRecord [("PNT", 0), ("USD", 1)])
    (by decide) (sample_validateDecoded [])

/-- Lines 39-45 of `ValidateV1` look up the codes of the schema only: lines 34-65 accept
a decoded content whose asset map has the further key "XXX", which is not in the schema
`["PNT", "USD"]`. -/
theorem validateDecoded_accepts_extra_asset :
    validateDecoded (sampleEnv ["PNT", "USD"]) (List.replicate 32 0)
        [[9], [0, 0, 0, 0, 0, 0, 1, 2], [1]] 1 (List.replicate 10 "w") sampleJson
        (sampleContent [("PNT", 0), ("USD", 1), ("XXX", 5)]) =
      some (some (sampleRecord [("PNT", 0), ("USD", 1), ("XXX", 5)]), none) ∧
    "XXX" ∈ (sampleRecord [("PNT", 0), ("USD", 1), ("XXX", 5)]).OPR.Assets.map Prod.fst ∧
    "XXX" ∉ (sampleEnv ["PNT", "USD"]).V1Assets :=
  ⟨sample_validateDecoded [("XXX", 5)], by decide, by decide⟩

/-- Whenever lines 34-65 of `ValidateV1` return a record, every code of the schema
`opr.V1Assets` is a key of the record's asset map. -/
theorem validateDecoded_schema_codes_present (E : Env) (entryhash : List Byte)
    (extids : List (List Byte)) (height : Int) (winners : List String)
    (content : List Byte) (d : V1Content) (g : GradingOPR)
    (hret : validateDecoded E entryhash extids height winners content d =
      some (some g, none)) :
    ∀ code ∈ E.V1Assets, code ∈ g.OPR.Assets.map Prod.fst := by
  obtain ⟨_, ha, _, _, _, _, _, _, _, _, _, hg⟩ :=
    validateDecoded_record E entryhash extids height winners content d g none hret
  subst hg
  intro code hcode
  obtain ⟨v, hv, _⟩ := (verifyAssets_eq_none_iff d E.V1Assets).mp ha code hcode
  exact mem_keys_of_lookup d.Assets code v hv

/-- C8: on an entry that passes checks 1-4 and whose content is a well-formed record at
the right height with exactly the codes of the schema, none of them 0, and the right
winners, `ValidateV1` returns the decode error of the nil destination and no record;
lines 34-65, given the decoded content, return a record whose asset keys are exactly
the schema. -/
theorem ValidateV1_valid_entry_decode_error :
    ValidateV1 (sampleEnv ["PNT", "USD"]) (List.replicate 32 0)
        [[9], [0, 0, 0, 0, 0, 0, 1, 2], [1]] 1 (List.replicate 10 "w") sampleJsonNonzero =
      some (none, some (GraderError.decode "json: Unmarshal(nil *opr.V1Content)")) ∧
    ∃ g, validateDecoded (sampleEnv ["PNT", "USD"]) (List.replicate 32 0)
        [[9], [0, 0, 0, 0, 0, 0, 1, 2], [1]] 1 (List.replicate 10 "w") sampleJsonNonzero
        (sampleContent [("PNT", 1), ("USD", 2)]) = some (some g, none) ∧
      g.OPR.Assets.map Prod.fst = (sampleEnv ["PNT", "USD"]).V1Assets := by
  constructor
  · simp [ValidateV1, jsonUnmarshal, sampleEnv, retErr, NewDecodeError, invalidUnmarshalMsg]
  · refine ⟨{ EntryHash := List.replicate 32 0
              Nonce := [9]
              SelfReportedDifficulty := 258
              OPRHash := (sampleEnv ["PNT", "USD"]).sha256 sampleJsonNonzero
              OPR := sampleContent [("PNT", 1), ("USD", 2)]
              Grade := 0 }, ?_, ?_⟩
    · simp [validateDecoded, verifyAssets, sampleEnv, sampleContent, retOk,
        bigEndianUint64, List.lookup]
    · simp [sampleContent, sampleEnv]

/-- C6: on an entry that passes checks 1-4 and whose content is well-formed JSON with
the asset USD at 0, `ValidateV1` returns the decode error of the nil destination, not
the validation error; lines 34-65, given the decoded content, would return "all values
other than PNT must be nonzero". -/
theorem ValidateV1_zero_asset_decode_error :
    ValidateV1 (sampleEnv ["PNT", "USD"]) (List.replicate 32 0)
        [[9], [0, 0, 0, 0, 0, 0, 1, 2], [1]] 1 (List.replicate 10 "w") sampleJson =
      some (none, some (GraderError.decode "json: Unmarshal(nil *opr.V1Content)")) ∧
    validateDecoded (sampleEnv ["PNT", "USD"]) (List.replicate 32 0)
        [[9], [0, 0, 0, 0, 0, 0, 1, 2], [1]] 1 (List.replicate 10 "w") sampleJson
        (sampleContent [("PNT", 1), ("USD", 0)]) =
      some (none, some
        (GraderError.validate "all values other than PNT must be nonzero")) := by
  constructor
  · simp [ValidateV1, jsonUnmarshal, sampleEnv, retErr, NewDecodeError, invalidUnmarshalMsg]
  · simp [validateDecoded, verifyAssets, sampleEnv, sampleContent, retErr, NewValidateError,
      List.lookup]

/-! ## The entry validator: the nil decode target -/

/-- With a nil destination `json.Unmarshal` returns an error, for every content. -/
theorem jsonUnmarshal_nil (E : Env) (content : List Byte) :
    ∃ msg, jsonUnmarshal E content none = (some msg, none) := by
  unfold jsonUnmarshal
  cases E.jsonCheckValid content with
  | none => exact ⟨invalidUnmarshalMsg, rfl⟩
  | some msg => exact ⟨msg, rfl⟩

/-- Past checks 1-4 `ValidateV1` returns the error of `json.Unmarshal` as a decode
error. -/
theorem ValidateV1_after_checks (E : Env) (entryhash nonce difficulty : List Byte)
    (height : Int) (winners : List String) (content : List Byte)
    (h32 : entryhash.length = 32) (h8 : difficulty.length = 8) :
    ∃ msg, ValidateV1 E entryhash [nonce, difficulty, [1]] height winners content =
      some (none, some (GraderError.decode msg)) := by
  obtain ⟨msg, hmsg⟩ := jsonUnmarshal_nil E content
  refine ⟨msg, ?_⟩
  simp [ValidateV1, h32, h8, hmsg, retErr, NewDecodeError]

/-- Every call of `ValidateV1` returns an error and no record. -/
theorem ValidateV1_returns_error (E : Env) (entryhash : List Byte)
    (extids : List (List Byte)) (height : Int) (winners : List String)
    (content : List Byte) :
    ∃ err, ValidateV1 E entryhash extids height winners content = some (none, some err) := by
  by_cases h32 : entryhash.length = 32
  · by_cases h3 : extids.length = 3
    · match extids, h3 with
      | [nonce, difficulty, version], _ =>
        by_cases hv : version = [1]
        · subst hv
          by_cases h8 : difficulty.length = 8
          · obtain ⟨msg, hmsg⟩ :=
              ValidateV1_after_checks E entryhash nonce difficulty height winners content h32 h8
            exact ⟨_, hmsg⟩
          · refine ⟨NewValidateError "self reported difficulty must be 8 bytes", ?_⟩
            simp [ValidateV1, h32, h8, retErr]
        · have hv' := (version_test_iff version).mpr hv
          refine ⟨NewValidateError "invalid version", ?_⟩
          simp only [ValidateV1, h32]
          simp [hv', retErr]
    · refine ⟨NewValidateError "invalid extid count", ?_⟩
      simp [ValidateV1, h32, h3, retErr]
  · refine ⟨NewValidateError "invalid entry hash length", ?_⟩
    simp [ValidateV1, h32, retErr]

/-- C18: the decode target of `ValidateV1` is a nil pointer, so decoding always fails:
every entry that passes checks 1-4 (32-byte hash, three `extids`, version byte 1,
8-byte difficulty) gets a decode error and no record, for every content; and no input
at all makes `ValidateV1` return a record. -/
theorem ValidateV1_decode_always_fails (E : Env) (entryhash nonce difficulty : List Byte)
    (height : Int) (winners : List String) (content : List Byte)
    (h32 : entryhash.length = 32) (h8 : difficulty.length = 8) :
    (∃ msg, ValidateV1 E entryhash [nonce, difficulty, [1]] height winners content =
      some (none, some (GraderError.decode msg))) ∧
    ∀ (entryhash' : List Byte) (extids' : List (List Byte)) (height' : Int)
      (winners' : List String) (content' : List Byte) (g : GradingOPR)
      (e : Option GraderError),
      ValidateV1 E entryhash' extids' height' winners' content' ≠ some (some g, e) := by
  refine ⟨ValidateV1_after_checks E entryhash nonce difficulty height winners content h32 h8,
    ?_⟩
  intro entryhash' extids' height' winners' content' g e hret
  obtain ⟨err, herr⟩ := ValidateV1_returns_error E entryhash' extids' height' winners' content'
  rw [herr] at hret
  simp at hret

/-- C18 at the sample entry. -/
theorem ValidateV1_decode_always_fails_witness :
    (∃ msg, ValidateV1 (sampleEnv ["PNT", "USD"]) (List.replicate 32 0)
        [[9], [0, 0, 0, 0, 0, 0, 1, 2], [1]] 1 (List.replicate 10 "w") sampleJson =
      some (none, some (GraderError.decode msg))) ∧
    ∀ (entryhash' : List Byte) (extids' : List (List Byte)) (height' : Int)
      (winners' : List String) (content' : List Byte) (g : GradingOPR)
      (e : Option GraderError),
      ValidateV1 (sampleEnv ["PNT", "USD"]) entryhash' extids' height' winners' content' ≠
        some (some g, e) :=
  ValidateV1_decode_always_fails (sampleEnv ["PNT", "USD"]) (List.replicate 32 0) [9]
    [0, 0, 0, 0, 0, 0, 1, 2] 1 (List.replicate 10 "w") sampleJson (by decide) (by decide)

/-- C16: `ValidateV1` never panics and returns exactly one of a record and an error, for
every entry hash, `extids`, height, winner list and content; and lines 34-65, for
three `extids` with an 8-byte difficulty and any decoded content, do not panic either
(`extids[0]`, `extids[1]` and the big-endian read are in range) and return exactly one
of a record and an error. -/
theorem ValidateV1_never_panics (E : Env) (entryhash : List Byte)
    (extids : List (List Byte)) (height : Int) (winners : List String)
    (content : List Byte) :
    ((∃ g, ValidateV1 E entryhash extids height winners content = some (some g, none)) ∨
      (∃ err, ValidateV1 E entryhash extids height winners content =
        some (none, some err))) ∧
    ∀ (d : V1Content) (nonce version : List Byte) (b0 b1 b2 b3 b4 b5 b6 b7 : Byte),
      (∃ g, validateDecoded E entryhash [nonce, [b0, b1, b2, b3, b4, b5, b6, b7], version]
          height winners content d = some (some g, none)) ∨
      (∃ err, validateDecoded E entryhash [nonce, [b0, b1, b2, b3, b4, b5, b6, b7], version]
          height winners content d = some (none, some err)) := by
  constructor
  · exact Or.inr (ValidateV1_returns_error E entryhash extids height winners content)
  · intro d nonce version b0 b1 b2 b3 b4 b5 b6 b7
    unfold validateDecoded
    split
    · exact Or.inr ⟨_, rfl⟩
    · split
      · exact Or.inr ⟨_, rfl⟩
      · split
        · exact Or.inr ⟨_, rfl⟩
        · split
          · exact Or.inr ⟨_, rfl⟩
          · simp only [List.getElem?_cons_zero, List.getElem?_cons_succ, bigEndianUint64,
              retOk]
            exact Or.inl ⟨_, rfl⟩

/-! ## The grader -/

/-- The loop of `gradeV1` adds to the running grade, for each remaining asset, the
fourth power of its relative deviation when the average at its position is positive,
and nothing otherwise; it does not panic while the positions stay inside `avg`. -/
theorem gradeLoop_eq (assets : List Asset) :
    ∀ (i : Nat) (avg : List ℚ) (g : ℚ), i + assets.length ≤ avg.length →
      gradeLoop assets i avg g =
        some (g + ∑ j in Finset.range assets.length,
          if 0 < avg.getD (i + j) 0 then
            (((assets.map Asset.Value).getD j 0 - avg.getD (i + j) 0) /
              avg.getD (i + j) 0) ^ 4
          else 0) := by
  induction assets with
  | nil => intro i avg g _; simp [gradeLoop]
  | cons a rest ih =>
    intro i avg g h
    have hi : i < avg.length := by simp at h; omega
    have hget : avg[i]? = some (avg.getD i 0) := by
      rw [List.getD_eq_getElem?_getD, List.getElem?_eq_getElem hi]; rfl
    have hrest : i + 1 + rest.length ≤ avg.length := by simp at h; omega
    have hshift : ∀ j, i + 1 + j = i + (j + 1) := fun j => by omega
    rw [gradeLoop, hget]
    simp only [List.length_cons, Finset.sum_range_succ', List.map_cons,
      List.getD_cons_succ, List.getD_cons_zero, Nat.add_zero]
    by_cases hpos : 0 < avg.getD i 0
    · simp only [gt_iff_lt, hpos, if_true]
      rw [ih (i + 1) avg _ hrest]
      simp only [hshift]
      congr 1
      ring
    · simp only [gt_iff_lt, hpos, if_false]
      rw [ih (i + 1) avg _ hrest]
      simp only [hshift]
      congr 1
      ring

/-- The result of `gradeV1` in closed form: the returned grade and the record after
the call. -/
theorem gradeV1_eq (E : Env) (avg : List ℚ) (opr : GradingOPR)
    (h : (E.GetOrderedAssets opr.OPR).length ≤ avg.length) :
    gradeV1 E avg opr =
      some (quarticDeviation avg ((E.GetOrderedAssets opr.OPR).map Asset.Value),
        { opr with
          Grade := quarticDeviation avg ((E.GetOrderedAssets opr.OPR).map Asset.Value) }) := by
  have hloop := gradeLoop_eq (E.GetOrderedAssets opr.OPR) 0 avg 0 (by simpa using h)
  simp only [gradeV1, hloop, quarticDeviation, List.length_map, Finset.sum_filter,
    Nat.zero_add, zero_add]

/-- C2: for a record whose ordered asset list is no longer than `avg`, `gradeV1`
returns the sum, over exactly the asset positions `i` with `avg[i] > 0`, of
`((value_i - avg[i]) / avg[i]) ^ 4`; the other positions contribute nothing. -/
theorem gradeV1_returns_quarticDeviation (E : Env) (avg : List ℚ) (opr : GradingOPR)
    (h : (E.GetOrderedAssets opr.OPR).length ≤ avg.length) :
    (gradeV1 E avg opr).map Prod.fst =
      some (∑ i in (Finset.range (E.GetOrderedAssets opr.OPR).length).filter
          (fun i => 0 < avg.getD i 0),
        ((((E.GetOrderedAssets opr.OPR).map Asset.Value).getD i 0 - avg.getD i 0) /
          avg.getD i 0) ^ 4) := by
  rw [gradeV1_eq E avg opr h]
  simp only [Option.map_some', quarticDeviation, List.length_map]

/-- C2 at the averages `[0, 2, 5]` and a record with the values 3 and 4. -/
theorem gradeV1_returns_quarticDeviation_witness :
    (gradeV1 (sampleEnv ["PNT", "USD"]) [0, 2, 5]
        (sampleOpr [("PNT", 3), ("USD", 4)])).map Prod.fst =
      some (∑ i in (Finset.range ((sampleEnv ["PNT", "USD"]).GetOrderedAssets
            (sampleOpr [("PNT", 3), ("USD", 4)]).OPR).length).filter
          (fun i => 0 < ([0, 2, 5] : List ℚ).getD i 0),
        (((((sampleEnv ["PNT", "USD"]).GetOrderedAssets
            (sampleOpr [("PNT", 3), ("USD", 4)]).OPR).map Asset.Value).getD i 0 -
          ([0, 2, 5] : List ℚ).getD i 0) / ([0, 2, 5] : List ℚ).getD i 0) ^ 4) :=
  gradeV1_returns_quarticDeviation (sampleEnv ["PNT", "USD"]) [0, 2, 5]
    (sampleOpr [("PNT", 3), ("USD", 4)]) (by decide)

/-- The quartic deviation is a sum of fourth powers, so it is not negative. -/
theorem quarticDeviation_nonneg (avg values : List ℚ) : 0 ≤ quarticDeviation avg values := by
  unfold quarticDeviation
  apply Finset.sum_nonneg
  intro i _
  exact Even.pow_nonneg (by decide) _

/-- In exact arithmetic, for a record whose ordered asset list is no longer than `avg`,
`gradeV1` returns a grade that is at least 0, whatever the signs of the entries of `avg`
and of the asset values.  In `float64` this needs `avg` to be free of `+Inf`: see the
grader in binary64 below. -/
theorem gradeV1_nonneg_exact (E : Env) (avg : List ℚ) (opr : GradingOPR)
    (h : (E.GetOrderedAssets opr.OPR).length ≤ avg.length) :
    ∃ g opr', gradeV1 E avg opr = some (g, opr') ∧ 0 ≤ g := by
  exact ⟨_, _, gradeV1_eq E avg opr h, quarticDeviation_nonneg _ _⟩

/-- C13: for a record whose ordered asset value equals `avg[i]` at every position `i`,
`gradeV1` returns 0, whether `avg[i]` is positive, zero or negative. -/
theorem gradeV1_at_average (E : Env) (avg : List ℚ) (opr : GradingOPR)
    (hlen : (E.GetOrderedAssets opr.OPR).length ≤ avg.length)
    (heq : ∀ i, i < (E.GetOrderedAssets opr.OPR).length →
      ((E.GetOrderedAssets opr.OPR).map Asset.Value).getD i 0 = avg.getD i 0) :
    (gradeV1 E avg opr).map Prod.fst = some 0 := by
  rw [gradeV1_eq E avg opr hlen]
  simp only [Option.map_some', Option.some.injEq, quarticDeviation, List.length_map]
  apply Finset.sum_eq_zero
  intro i hi
  have hi' : i < (E.GetOrderedAssets opr.OPR).length :=
    Finset.mem_range.mp (Finset.mem_filter.mp hi).1
  rw [heq i hi', sub_self, zero_div]
  norm_num

/-- C13 at averages with a zero, a positive and a negative entry. -/
theorem gradeV1_at_average_witness :
    (gradeV1 (sampleEnv ["PNT", "USD", "EUR"]) [0, 7, -2, 9]
      (sampleOpr [("PNT", 0), ("USD", 7), ("EUR", -2)])).map Prod.fst = some 0 :=
  gradeV1_at_average (sampleEnv ["PNT", "USD", "EUR"]) [0, 7, -2, 9]
    (sampleOpr [("PNT", 0), ("USD", 7), ("EUR", -2)]) (by decide) (by decide)

/-- C14: `gradeV1` overwrites the grade: a call with `avg1` returns `g1` and leaves the
record with `Grade = g1` and every other field as it was; a following call with `avg2`
on that record returns `g2`, the value a call with `avg2` returns on any record with
the same content (so `g2` does not depend on the previous grade), and leaves the
record with `Grade = g2` and every other field as it was. -/
theorem gradeV1_overwrites (E : Env) (avg1 avg2 : List ℚ) (r fresh : GradingOPR)
    (h1 : (E.GetOrderedAssets r.OPR).length ≤ avg1.length)
    (h2 : (E.GetOrderedAssets r.OPR).length ≤ avg2.length)
    (hfresh : fresh.OPR = r.OPR) :
    ∃ g1 r1 g2 r2, gradeV1 E avg1 r = some (g1, r1) ∧ gradeV1 E avg2 r1 = some (g2, r2) ∧
      (gradeV1 E avg2 fresh).map Prod.fst = some g2 ∧
      r1.Grade = g1 ∧ r2.Grade = g2 ∧
      r1 = { r with Grade := g1 } ∧ r2 = { r with Grade := g2 } := by
  refine ⟨quarticDeviation avg1 ((E.GetOrderedAssets r.OPR).map Asset.Value),
    { r with Grade := quarticDeviation avg1 ((E.GetOrderedAssets r.OPR).map Asset.Value) },
    quarticDeviation avg2 ((E.GetOrderedAssets r.OPR).map Asset.Value),
    { r with Grade := quarticDeviation avg2 ((E.GetOrderedAssets r.OPR).map Asset.Value) },
    gradeV1_eq E avg1 r h1, ?_, ?_, rfl, rfl, rfl, rfl⟩
  · exact gradeV1_eq E avg2 _ h2
  · rw [gradeV1_eq E avg2 fresh (by rw [hfresh]; exact h2), hfresh]
    rfl

/-- C14 at a record whose grade was 99 before the first call. -/
theorem gradeV1_overwrites_witness :
    ∃ g1 r1 g2 r2,
      gradeV1 (sampleEnv ["PNT", "USD"]) [1, 2]
        { sampleOpr [("PNT", 3), ("USD", 4)] with Grade := 99 } = some (g1, r1) ∧
      gradeV1 (sampleEnv ["PNT", "USD"]) [3, 8] r1 = some (g2, r2) ∧
      (gradeV1 (sampleEnv ["PNT", "USD"]) [3, 8]
        (sampleOpr [("PNT", 3), ("USD", 4)])).map Prod.fst = some g2 ∧
      r1.Grade = g1 ∧ r2.Grade = g2 ∧
      r1 = { ({ sampleOpr [("PNT", 3), ("USD", 4)] with Grade := 99 } : GradingOPR) with
        Grade := g1 } ∧
      r2 = { ({ sampleOpr [("PNT", 3), ("USD", 4)] with Grade := 99 } : GradingOPR) with
        Grade := g2 } :=
  gradeV1_overwrites (sampleEnv ["PNT", "USD"]) [1, 2] [3, 8]
    { sampleOpr [("PNT", 3), ("USD", 4)] with Grade := 99 }
    (sampleOpr [("PNT", 3), ("USD", 4)]) (by decide) (by decide) rfl

/-- C11, as stated, fails.  On the cohort reporting 9000, 9100 and 9200 `averageV1`
returns `[27300]`, not `[9100]`, and the record reporting 9100 grades 16/81 against it,
not 0.  On the cohort reporting -1, 1 and 3 (`a = 1`, `d = 2`) `averageV1` returns `[5]`
and even the mean magnitude is `[5/3]`, not `[1]`. -/
theorem averageV1_three_records_counterexample :
    averageV1 (sampleEnv ["XBT"])
        [sampleOpr [("XBT", 9000)], sampleOpr [("XBT", 9100)], sampleOpr [("XBT", 9200)]] =
      some [27300] ∧
    averageV1 (sampleEnv ["XBT"])
        [sampleOpr [("XBT", 9000)], sampleOpr [("XBT", 9100)], sampleOpr [("XBT", 9200)]] ≠
      some [9100] ∧
    (gradeV1 (sampleEnv ["XBT"]) [27300] (sampleOpr [("XBT", 9100)])).map Prod.fst =
      some (16 / 81) ∧
    averageV1 (sampleEnv ["XBT"])
        [sampleOpr [("XBT", -1)], sampleOpr [("XBT", 1)], sampleOpr [("XBT", 3)]] =
      some [5] ∧
    meanMagnitude (sampleEnv ["XBT"])
        [sampleOpr [("XBT", -1)], sampleOpr [("XBT", 1)], sampleOpr [("XBT", 3)]] =
      [5 / 3] := by
  have h : averageV1 (sampleEnv ["XBT"])
      [sampleOpr [("XBT", 9000)], sampleOpr [("XBT", 9100)], sampleOpr [("XBT", 9200)]] =
      some [27300] := by
    norm_num [averageV1, sumOprs, sumAssets, sampleEnv, orderedBy, sampleOpr,
      sampleContent, List.lookup]
  refine ⟨h, ?_, ?_, ?_, ?_⟩
  · rw [h]; norm_num
  · norm_num [gradeV1, gradeLoop, sampleEnv, orderedBy, sampleOpr, sampleContent,
      List.lookup]
  · norm_num [averageV1, sumOprs, sumAssets, sampleEnv, orderedBy, sampleOpr,
      sampleContent, List.lookup]
  · norm_num [meanMagnitude, sampleEnv, orderedBy, sampleOpr, sampleContent, List.lookup,
      List.range, List.range.loop]

/-- The grade of a single value `v` against the single average `a > 0`. -/
theorem gradeV1_single (E : Env) (a v : ℚ) (opr : GradingOPR) (ha : 0 < a)
    (hv : (E.GetOrderedAssets opr.OPR).map Asset.Value = [v]) :
    (gradeV1 E [a] opr).map Prod.fst = some (((v - a) / a) ^ 4) := by
  have hlen : (E.GetOrderedAssets opr.OPR).length = 1 := by
    simpa using congrArg List.length hv
  rw [gradeV1_eq E [a] opr (by rw [hlen]; simp), hv]
  simp [quarticDeviation, Finset.sum_filter, ha]

/-- C11, amended: for `a > 0` and `d ≠ 0`, graded against the average vector `[a]`, the
record reporting `a` grades 0 and the records reporting `a - d` and `a + d` get the
same grade, which is greater than 0. -/
theorem gradeV1_symmetric_deviation (E : Env) (a d : ℚ) (lo mid hi : GradingOPR)
    (ha : 0 < a) (hd : d ≠ 0)
    (hlo : (E.GetOrderedAssets lo.OPR).map Asset.Value = [a - d])
    (hmid : (E.GetOrderedAssets mid.OPR).map Asset.Value = [a])
    (hhi : (E.GetOrderedAssets hi.OPR).map Asset.Value = [a + d]) :
    (gradeV1 E [a] mid).map Prod.fst = some 0 ∧
      ∃ g, 0 < g ∧ (gradeV1 E [a] lo).map Prod.fst = some g ∧
        (gradeV1 E [a] hi).map Prod.fst = some g := by
  have hne : d / a ≠ 0 := div_ne_zero hd ha.ne'
  refine ⟨?_, (d / a) ^ 4, ?_, ?_, ?_⟩
  · rw [gradeV1_single E a a mid ha hmid]; simp
  · exact Even.pow_pos (by decide) hne
  · rw [gradeV1_single E a (a - d) lo ha hlo]
    congr 1
    field_simp
    ring
  · rw [gradeV1_single E a (a + d) hi ha hhi]
    congr 1
    field_simp

/-- C11, amended, at the values 9000, 9100 and 9200 graded against `[9100]`. -/
theorem gradeV1_symmetric_deviation_witness :
    (gradeV1 (sampleEnv ["XBT"]) [9100] (sampleOpr [("XBT", 9100)])).map Prod.fst = some 0 ∧
      ∃ g, 0 < g ∧
        (gradeV1 (sampleEnv ["XBT"]) [9100] (sampleOpr [("XBT", 9000)])).map Prod.fst =
          some g ∧
        (gradeV1 (sampleEnv ["XBT"]) [9100] (sampleOpr [("XBT", 9200)])).map Prod.fst =
          some g :=
  gradeV1_symmetric_deviation (sampleEnv ["XBT"]) 9100 100 (sampleOpr [("XBT", 9000)])
    (sampleOpr [("XBT", 9100)]) (sampleOpr [("XBT", 9200)]) (by decide) (by decide)
    (by norm_num [sampleEnv, orderedBy, sampleOpr, sampleContent, List.lookup])
    (by decide)
    (by norm_num [sampleEnv, orderedBy, sampleOpr, sampleContent, List.lookup])

/-! ## The aggregator -/

/-- A list is the list of its entries read by position. -/
theorem range_map_getD (l : List ℚ) :
    (List.range l.length).map (fun p => l.getD p 0) = l := by
  apply List.ext_getElem
  · simp
  · intro n h1 h2
    simp [List.getD_eq_getElem?_getD, List.getElem?_eq_getElem h2]

/-- One step of the inner loop of `averageV1` adds the magnitude of the asset value,
whichever branch of the sign test is taken. -/
theorem sumAssets_cons (a : Asset) (rest : List Asset) (i : Nat) (avg : List ℚ) :
    sumAssets (a :: rest) i avg =
      match avg[i]? with
      | none => none
      | some x => sumAssets rest (i + 1) (avg.set i (x + |a.Value|)) := by
  rw [sumAssets]
  cases avg[i]? with
  | none => rfl
  | some x =>
    simp only []
    split
    · rename_i h; rw [abs_of_nonneg h]
    · rename_i h; rw [abs_of_neg (not_le.mp h), sub_eq_add_neg]

/-- The inner loop of `averageV1` in closed form: position `p` of the result is
position `p` of `avg` plus the magnitude of the asset the loop meets there. -/
theorem sumAssets_eq (assets : List Asset) :
    ∀ (i : Nat) (avg : List ℚ), i + assets.length ≤ avg.length →
      sumAssets assets i avg =
        some ((List.range avg.length).map fun p =>
          avg.getD p 0 +
            if i ≤ p then (assets.map fun a => |a.Value|).getD (p - i) 0 else 0) := by
  induction assets with
  | nil =>
    intro i avg _
    have hfun : (fun p => avg.getD p 0 +
        if i ≤ p then (([] : List Asset).map fun a => |a.Value|).getD (p - i) 0 else 0) =
        fun p => avg.getD p 0 := by
      funext p; simp
    rw [sumAssets, hfun, range_map_getD]
  | cons a rest ih =>
    intro i avg h
    have hi : i < avg.length := by simp at h; omega
    have hget : avg[i]? = some (avg.getD i 0) := by
      rw [List.getD_eq_getElem?_getD, List.getElem?_eq_getElem hi]; rfl
    rw [sumAssets_cons, hget]
    simp only []
    rw [ih (i + 1) _ (by simp at h ⊢; omega)]
    congr 1
    rw [List.length_set]
    apply List.map_congr_left
    intro p hp
    have hp' : p < avg.length := List.mem_range.mp hp
    rcases lt_trichotomy p i with hlt | heq | hgt
    · have h1 : ¬ i + 1 ≤ p := by omega
      have h2 : ¬ i ≤ p := by omega
      have h3 : i ≠ p := by omega
      simp [h1, h2, List.getD_eq_getElem?_getD, List.getElem?_set_ne h3]
    · subst heq
      simp [List.getD_eq_getElem?_getD, List.getElem?_set_self, hp']
    · have h1 : i + 1 ≤ p := by omega
      have h2 : i ≤ p := by omega
      have h3 : i ≠ p := by omega
      have h4 : p - i = (p - (i + 1)) + 1 := by omega
      simp only [h1, h2, if_true, h4, List.map_cons, List.getD_cons_succ]
      simp [List.getD_eq_getElem?_getD, List.getElem?_set_ne h3]

/-- The outer loop of `averageV1` in closed form: position `p` of the result is
position `p` of `avg` plus the magnitudes all the records have there. -/
theorem sumOprs_eq (E : Env) (oprs : List GradingOPR) :
    ∀ (avg : List ℚ), (∀ o ∈ oprs, (E.GetOrderedAssets o.OPR).length ≤ avg.length) →
      sumOprs E oprs avg =
        some ((List.range avg.length).map fun p =>
          avg.getD p 0 + (oprs.map fun o => (magnitudes E o).getD p 0).sum) := by
  induction oprs with
  | nil =>
    intro avg _
    have hfun : (fun p => avg.getD p 0 +
        (([] : List GradingOPR).map fun o => (magnitudes E o).getD p 0).sum) =
        fun p => avg.getD p 0 := by
      funext p; simp
    rw [sumOprs, hfun, range_map_getD]
  | cons o rest ih =>
    intro avg h
    have ho : 0 + (E.GetOrderedAssets o.OPR).length ≤ avg.length := by
      simpa using h o (List.mem_cons_self _ _)
    rw [sumOprs, sumAssets_eq _ 0 avg ho]
    simp only []
    rw [ih _ (by
      intro o' ho'
      simpa using h o' (List.mem_cons_of_mem _ ho'))]
    congr 1
    simp only [List.length_map, List.length_range]
    apply List.map_congr_left
    intro p hp
    have hp' : p < avg.length := List.mem_range.mp hp
    have hget : ((List.range avg.length).map fun p =>
        avg.getD p 0 + if 0 ≤ p then
          ((E.GetOrderedAssets o.OPR).map fun a => |a.Value|).getD (p - 0) 0 else 0).getD p 0 =
        avg.getD p 0 + (magnitudes E o).getD p 0 := by
      rw [List.getD_eq_getElem?_getD, List.getElem?_map, List.getElem?_range hp']
      simp [magnitudes]
    rw [hget]
    simp only [List.map_cons, List.sum_cons]
    ring

/-- The function `averageV1` in closed form, for a cohort none of whose records has more
assets than the first: it does not panic, and position `p` of the result is the sum
of the magnitudes at `p` divided by the number of assets of the first record. -/
theorem averageV1_eq (E : Env) (o0 : GradingOPR) (rest : List GradingOPR)
    (h : ∀ o ∈ o0 :: rest,
      (E.GetOrderedAssets o.OPR).length ≤ (E.GetOrderedAssets o0.OPR).length) :
    averageV1 E (o0 :: rest) =
      some ((List.range (E.GetOrderedAssets o0.OPR).length).map fun p =>
        ((o0 :: rest).map fun o => (magnitudes E o).getD p 0).sum /
          ((E.GetOrderedAssets o0.OPR).length : ℚ)) := by
  rw [averageV1, sumOprs_eq E (o0 :: rest) _ (by simpa using h)]
  simp only [List.length_replicate, List.length_map, List.length_range, List.map_map]
  congr 1
  apply List.map_congr_left
  intro p hp
  have hp' : p < (E.GetOrderedAssets o0.OPR).length := List.mem_range.mp hp
  simp [List.getD_eq_getElem?_getD, List.getElem?_replicate, hp']

/-- C1: on the cohort of two records with one asset each, of values 2 and 4,
`averageV1` returns `[6]`, the sum divided by the number of assets (1), while the mean
magnitude of the spec, the sum divided by the number of records (2), is `[3]`. -/
theorem averageV1_two_records_one_asset :
    averageV1 (sampleEnv ["XBT"]) [sampleOpr [("XBT", 2)], sampleOpr [("XBT", 4)]] =
      some [6] ∧
    meanMagnitude (sampleEnv ["XBT"]) [sampleOpr [("XBT", 2)], sampleOpr [("XBT", 4)]] =
      [3] := by
  constructor
  · norm_num [averageV1, sumOprs, sumAssets, sampleEnv, orderedBy, sampleOpr,
      sampleContent, List.lookup]
  · norm_num [meanMagnitude, sampleEnv, orderedBy, sampleOpr, sampleContent, List.lookup,
      List.range, List.range.loop]

/-- The inner loop of `averageV1` reads its assets only through their magnitudes. -/
theorem sumAssets_congr (as : List Asset) :
    ∀ (as' : List Asset) (i : Nat) (avg : List ℚ),
      (as.map fun a => |a.Value|) = (as'.map fun a => |a.Value|) →
      sumAssets as i avg = sumAssets as' i avg := by
  induction as with
  | nil =>
    intro as' i avg h
    cases as' with
    | nil => rfl
    | cons _ _ => simp at h
  | cons a rest ih =>
    intro as' i avg h
    cases as' with
    | nil => simp at h
    | cons a' rest' =>
      simp only [List.map_cons, List.cons.injEq] at h
      rw [sumAssets_cons, sumAssets_cons, h.1]
      cases avg[i]? with
      | none => rfl
      | some x => exact ih rest' _ _ h.2

/-- The outer loop of `averageV1` reads its records only through their magnitudes. -/
theorem sumOprs_congr (E : Env) (oprs : List GradingOPR) :
    ∀ (oprs' : List GradingOPR) (avg : List ℚ),
      oprs.map (magnitudes E) = oprs'.map (magnitudes E) →
      sumOprs E oprs avg = sumOprs E oprs' avg := by
  induction oprs with
  | nil =>
    intro oprs' avg h
    cases oprs' with
    | nil => rfl
    | cons _ _ => simp at h
  | cons o rest ih =>
    intro oprs' avg h
    cases oprs' with
    | nil => simp at h
    | cons o' rest' =>
      simp only [List.map_cons, List.cons.injEq] at h
      rw [sumOprs, sumOprs, sumAssets_congr _ _ 0 avg h.1]
      cases sumAssets (E.GetOrderedAssets o'.OPR) 0 avg with
      | none => rfl
      | some avg' => exact ih rest' avg' h.2

/-- Two cohorts with the same magnitudes, record by record, have the same result of
`averageV1` (the same vector, or a panic for both). -/
theorem averageV1_congr (E : Env) (oprs oprs' : List GradingOPR)
    (h : oprs.map (magnitudes E) = oprs'.map (magnitudes E)) :
    averageV1 E oprs = averageV1 E oprs' := by
  cases oprs with
  | nil =>
    cases oprs' with
    | nil => rfl
    | cons _ _ => simp at h
  | cons o rest =>
    cases oprs' with
    | nil => simp at h
    | cons o' rest' =>
      have hlen : (E.GetOrderedAssets o.OPR).length = (E.GetOrderedAssets o'.OPR).length := by
        simp only [List.map_cons, List.cons.injEq] at h
        simpa [magnitudes] using congrArg List.length h.1
      rw [averageV1, averageV1, sumOprs_congr E _ _ _ h, hlen]

/-- Negating one value leaves the magnitudes as they are. -/
theorem negateAt_magnitudes (i : Nat) (as : List Asset) :
    ((negateAt i as).map fun a => |a.Value|) = as.map fun a => |a.Value| := by
  induction as generalizing i with
  | nil => cases i <;> rfl
  | cons a rest ih =>
    cases i with
    | zero => simp [negateAt]
    | succ i => simp [negateAt, ih i]

/-- Replacing an element by one with the same image leaves the mapped list as it is. -/
theorem map_set_of_eq {α β : Type} (f : α → β) (l : List α) :
    ∀ (j : Nat) (x : α) (hj : j < l.length), f x = f l[j] → (l.set j x).map f = l.map f := by
  induction l with
  | nil => intro j x hj; simp at hj
  | cons a rest ih =>
    intro j x hj hx
    cases j with
    | zero => simpa using hx
    | succ j =>
      simp only [List.set_cons_succ, List.map_cons, List.cons.injEq, true_and]
      exact ih j x (by simpa using hj) (by simpa using hx)

/-- C9: in a cohort whose records all have `k` ordered assets, replacing record `j` by
a record whose ordered assets are those of record `j` with the value at position `i`
negated leaves the result of `averageV1` as it is: both calls return the same vector. -/
theorem averageV1_sign_flip (E : Env) (oprs : List GradingOPR) (k j i : Nat)
    (r' : GradingOPR) (hk : ∀ o ∈ oprs, (E.GetOrderedAssets o.OPR).length = k)
    (hj : j < oprs.length)
    (hr : E.GetOrderedAssets r'.OPR = negateAt i (E.GetOrderedAssets (oprs[j]).OPR)) :
    ∃ avg, averageV1 E oprs = some avg ∧ averageV1 E (oprs.set j r') = some avg := by
  have hmag : magnitudes E r' = magnitudes E oprs[j] := by
    simp only [magnitudes, hr, negateAt_magnitudes]
  have hmap := map_set_of_eq (magnitudes E) oprs j r' hj hmag
  rw [averageV1_congr E _ _ hmap]
  cases oprs with
  | nil => simp at hj
  | cons o0 rest =>
    refine ⟨_, averageV1_eq E o0 rest ?_, averageV1_eq E o0 rest ?_⟩ <;>
    · intro o ho
      rw [hk o ho, hk o0 (List.mem_cons_self _ _)]

/-- C9 at a cohort of two records with two assets, the value 4 of the second record
turned into -4. -/
theorem averageV1_sign_flip_witness :
    ∃ avg,
      averageV1 (sampleEnv ["PNT", "USD"])
        [sampleOpr [("PNT", 1), ("USD", 2)], sampleOpr [("PNT", 3), ("USD", 4)]] = some avg ∧
      averageV1 (sampleEnv ["PNT", "USD"])
        ([sampleOpr [("PNT", 1), ("USD", 2)], sampleOpr [("PNT", 3), ("USD", 4)]].set 1
          (sampleOpr [("PNT", 3), ("USD", -4)])) = some avg :=
  averageV1_sign_flip (sampleEnv ["PNT", "USD"])
    [sampleOpr [("PNT", 1), ("USD", 2)], sampleOpr [("PNT", 3), ("USD", 4)]] 2 1 1
    (sampleOpr [("PNT", 3), ("USD", -4)]) (by decide) (by decide) (by decide)

/-- C10, as stated, fails on a cohort of one record with the single value -1:
`averageV1` returns `[1]`, the magnitude, not `[-1]`, and the record's grade against
it is 16, not 0. -/
theorem averageV1_negative_value_counterexample :
    averageV1 (sampleEnv ["XBT"]) [sampleOpr [("XBT", -1)]] = some [1] ∧
    averageV1 (sampleEnv ["XBT"]) [sampleOpr [("XBT", -1)]] ≠ some [-1] ∧
    (gradeV1 (sampleEnv ["XBT"]) [1] (sampleOpr [("XBT", -1)])).map Prod.fst = some 16 := by
  have h : averageV1 (sampleEnv ["XBT"]) [sampleOpr [("XBT", -1)]] = some [1] := by
    norm_num [averageV1, sumOprs, sumAssets, sampleEnv, orderedBy, sampleOpr,
      sampleContent, List.lookup]
  refine ⟨h, ?_, ?_⟩
  · rw [h]; norm_num
  · norm_num [gradeV1, gradeLoop, sampleEnv, orderedBy, sampleOpr, sampleContent,
      List.lookup]

/-- C10, amended: for a value `v ≥ 0` and a non-empty cohort whose records all have the
single ordered asset value `v`, of one record (or of any size when `v = 0`),
`averageV1` returns `[v]` and `gradeV1` of `[v]` and any record of the cohort is 0. -/
theorem averageV1_gradeV1_identical_values (E : Env) (oprs : List GradingOPR) (v : ℚ)
    (hne : oprs ≠ []) (hv : 0 ≤ v) (hN : oprs.length = 1 ∨ v = 0)
    (hall : ∀ o ∈ oprs, (E.GetOrderedAssets o.OPR).map Asset.Value = [v]) :
    averageV1 E oprs = some [v] ∧
      ∀ o ∈ oprs, (gradeV1 E [v] o).map Prod.fst = some 0 := by
  have hlen : ∀ o ∈ oprs, (E.GetOrderedAssets o.OPR).length = 1 := by
    intro o ho
    simpa using congrArg List.length (hall o ho)
  have hmag : ∀ o ∈ oprs, (magnitudes E o).getD 0 0 = v := by
    intro o ho
    have h1 : magnitudes E o = ((E.GetOrderedAssets o.OPR).map Asset.Value).map abs := by
      simp [magnitudes]
    rw [h1, hall o ho]
    simp [abs_of_nonneg hv]
  constructor
  · cases oprs with
    | nil => exact absurd rfl hne
    | cons o0 rest =>
      rw [averageV1_eq E o0 rest (by
        intro o ho
        rw [hlen o ho, hlen o0 (List.mem_cons_self _ _)])]
      rw [hlen o0 (List.mem_cons_self _ _)]
      have hsum : ((o0 :: rest).map fun o => (magnitudes E o).getD 0 0) =
          (o0 :: rest).map fun _ => v :=
        List.map_congr_left hmag
      have hr : List.range 1 = [0] := rfl
      rw [hr]
      simp only [List.map_cons, List.map_nil, Nat.cast_one, div_one] at hsum ⊢
      rw [hsum]
      rcases hN with h1 | h0
      · have : rest = [] := by
          simpa using h1
        subst this
        simp
      · subst h0
        simp
  · intro o ho
    rw [gradeV1_eq E [v] o (by rw [hlen o ho]; simp), hall o ho]
    simp [quarticDeviation, Finset.sum_filter]

/-- C10, amended, at the cohort of one record with the single value 5. -/
theorem averageV1_gradeV1_identical_values_witness :
    averageV1 (sampleEnv ["XBT"]) [sampleOpr [("XBT", 5)]] = some [5] ∧
      (gradeV1 (sampleEnv ["XBT"]) [5] (sampleOpr [("XBT", 5)])).map Prod.fst = some 0 :=
  ⟨(averageV1_gradeV1_identical_values (sampleEnv ["XBT"]) [sampleOpr [("XBT", 5)]] 5
      (by decide) (by decide) (Or.inl rfl) (by decide)).1,
   (averageV1_gradeV1_identical_values (sampleEnv ["XBT"]) [sampleOpr [("XBT", 5)]] 5
      (by decide) (by decide) (Or.inl rfl) (by decide)).2 _ (List.mem_singleton.mpr rfl)⟩

/-- Position `i` of a record's magnitudes is the absolute value of its value at `i`. -/
theorem magnitudes_getD (E : Env) (o : GradingOPR) (i : Nat) :
    (magnitudes E o).getD i 0 = |((E.GetOrderedAssets o.OPR).map Asset.Value).getD i 0| := by
  simp only [magnitudes, List.getD_eq_getElem?_getD, List.getElem?_map]
  cases (E.GetOrderedAssets o.OPR)[i]? <;> simp

/-- The result of `averageV1` on a non-empty cohort whose records all have `k` ordered
assets: a vector of length `k` whose entry at `i` is the sum of the magnitudes at `i`
divided by `k`. -/
theorem averageV1_entries (E : Env) (oprs : List GradingOPR) (k : Nat) (hne : oprs ≠ [])
    (hk : ∀ o ∈ oprs, (E.GetOrderedAssets o.OPR).length = k) :
    ∃ avg, averageV1 E oprs = some avg ∧ avg.length = k ∧
      ∀ i, i < k → avg.getD i 0 = magnitudeSum E oprs i / (k : ℚ) := by
  cases oprs with
  | nil => exact absurd rfl hne
  | cons o0 rest =>
    have h0 : (E.GetOrderedAssets o0.OPR).length = k := hk o0 (List.mem_cons_self _ _)
    refine ⟨_, averageV1_eq E o0 rest (fun o ho => by rw [hk o ho, h0]), ?_, ?_⟩
    · simp [h0]
    · intro i hi
      rw [h0, List.getD_eq_getElem?_getD, List.getElem?_map, List.getElem?_range hi]
      simp only [Option.map_some', Option.getD_some, magnitudeSum, magnitudes_getD]

/-- A sum of absolute values is not negative. -/
theorem magnitudeSum_nonneg (E : Env) (oprs : List GradingOPR) (i : Nat) :
    0 ≤ magnitudeSum E oprs i := by
  unfold magnitudeSum
  apply List.sum_nonneg
  intro x hx
  obtain ⟨o, _, rfl⟩ := List.mem_map.mp hx
  exact abs_nonneg _

/-- A sum of absolute values is 0 exactly when every value is 0. -/
theorem magnitudeSum_eq_zero_iff (E : Env) (oprs : List GradingOPR) (i : Nat) :
    magnitudeSum E oprs i = 0 ↔
      ∀ o ∈ oprs, ((E.GetOrderedAssets o.OPR).map Asset.Value).getD i 0 = 0 := by
  induction oprs with
  | nil => simp [magnitudeSum]
  | cons o rest ih =>
    have hrest := magnitudeSum_nonneg E rest i
    have habs := abs_nonneg (((E.GetOrderedAssets o.OPR).map Asset.Value).getD i 0)
    have hcons : magnitudeSum E (o :: rest) i =
        |((E.GetOrderedAssets o.OPR).map Asset.Value).getD i 0| + magnitudeSum E rest i := by
      simp [magnitudeSum]
    rw [hcons, List.forall_mem_cons, ← ih]
    constructor
    · intro h
      have h1 : |((E.GetOrderedAssets o.OPR).map Asset.Value).getD i 0| = 0 := by linarith
      exact ⟨abs_eq_zero.mp h1, by linarith⟩
    · rintro ⟨h1, h2⟩
      rw [h1, h2]; simp

/-- C15: on the empty cohort `averageV1` panics at `oprs[0]`, the access to the first
record; it returns no vector, in particular neither an empty nor a zero vector. -/
theorem averageV1_empty_cohort (E : Env) :
    averageV1 E [] = none ∧ ∀ avg, averageV1 E [] ≠ some avg :=
  ⟨rfl, fun _ h => Option.noConfusion h⟩

/-- C17: on a non-empty cohort whose records all have `k` ordered assets, `averageV1`
does not panic (no index is out of range) and returns a vector of length exactly `k`,
whatever the size of the cohort. -/
theorem averageV1_length (E : Env) (oprs : List GradingOPR) (k : Nat) (hne : oprs ≠ [])
    (hk : ∀ o ∈ oprs, (E.GetOrderedAssets o.OPR).length = k) :
    ∃ avg, averageV1 E oprs = some avg ∧ avg.length = k := by
  obtain ⟨avg, h, hlen, _⟩ := averageV1_entries E oprs k hne hk
  exact ⟨avg, h, hlen⟩

/-- In exact arithmetic, on a non-empty cohort whose records all have `k` ordered
assets, every entry of the result of `averageV1` is at least 0, and the entry at
position `i` is 0 exactly when every record has the value 0 at `i`; so the test
`avg[i] > 0` of `gradeV1` fails exactly at the positions where every record reported 0.
In `float64` an entry is also 0 when the quotient underflows: see the aggregator in
binary64 below. -/
theorem averageV1_nonneg_zero_iff_exact (E : Env) (oprs : List GradingOPR) (k : Nat)
    (hne : oprs ≠ []) (hk : ∀ o ∈ oprs, (E.GetOrderedAssets o.OPR).length = k) :
    ∃ avg, averageV1 E oprs = some avg ∧
      ∀ i, i < k →
        0 ≤ avg.getD i 0 ∧
        (avg.getD i 0 = 0 ↔
          ∀ o ∈ oprs, ((E.GetOrderedAssets o.OPR).map Asset.Value).getD i 0 = 0) ∧
        (¬ avg.getD i 0 > 0 ↔
          ∀ o ∈ oprs, ((E.GetOrderedAssets o.OPR).map Asset.Value).getD i 0 = 0) := by
  obtain ⟨avg, h, _, hval⟩ := averageV1_entries E oprs k hne hk
  refine ⟨avg, h, ?_⟩
  intro i hi
  have hkpos : (0 : ℚ) < k := by exact_mod_cast Nat.lt_of_le_of_lt (Nat.zero_le i) hi
  have hnn : 0 ≤ avg.getD i 0 := by
    rw [hval i hi]
    exact div_nonneg (magnitudeSum_nonneg E oprs i) hkpos.le
  have hzero : avg.getD i 0 = 0 ↔
      ∀ o ∈ oprs, ((E.GetOrderedAssets o.OPR).map Asset.Value).getD i 0 = 0 := by
    rw [hval i hi, div_eq_zero_iff, magnitudeSum_eq_zero_iff]
    constructor
    · rintro (h0 | h0)
      · exact h0
      · exact absurd h0 hkpos.ne'
    · exact Or.inl
  refine ⟨hnn, hzero, ?_⟩
  rw [← hzero]
  constructor
  · intro hle
    exact le_antisymm (not_lt.mp hle) hnn
  · intro h0
    rw [h0]
    exact lt_irrefl 0

/-- In exact arithmetic, on a non-empty cohort of `N` records with `k` ordered assets
each, the entry of `averageV1` at position `i` is the sum of the magnitudes at `i`
divided by `k`, the number of assets, while the mean magnitude divides by `N`; the two
agree at `i` exactly when `N = k` or the sum at `i` is 0.  In `float64` two different
quotients can round to the same value: see the aggregator in binary64 below. -/
theorem averageV1_divisor_is_asset_count_exact (E : Env) (oprs : List GradingOPR) (k : Nat)
    (hne : oprs ≠ []) (hk : ∀ o ∈ oprs, (E.GetOrderedAssets o.OPR).length = k) :
    ∃ avg, averageV1 E oprs = some avg ∧
      ∀ i, i < k →
        avg.getD i 0 = magnitudeSum E oprs i / (k : ℚ) ∧
        (meanMagnitude E oprs).getD i 0 = magnitudeSum E oprs i / (oprs.length : ℚ) ∧
        (avg.getD i 0 = (meanMagnitude E oprs).getD i 0 ↔
          oprs.length = k ∨ magnitudeSum E oprs i = 0) := by
  obtain ⟨avg, h, _, hval⟩ := averageV1_entries E oprs k hne hk
  refine ⟨avg, h, ?_⟩
  intro i hi
  have hkpos : (0 : ℚ) < k := by exact_mod_cast Nat.lt_of_le_of_lt (Nat.zero_le i) hi
  have hNpos : (0 : ℚ) < oprs.length := by
    exact_mod_cast List.length_pos.mpr hne
  have hmean : (meanMagnitude E oprs).getD i 0 =
      magnitudeSum E oprs i / (oprs.length : ℚ) := by
    cases oprs with
    | nil => exact absurd rfl hne
    | cons o0 rest =>
      have h0 : (E.GetOrderedAssets o0.OPR).length = k := hk o0 (List.mem_cons_self _ _)
      simp only [meanMagnitude, h0]
      rw [List.getD_eq_getElem?_getD, List.getElem?_map, List.getElem?_range hi]
      simp only [Option.map_some', Option.getD_some, magnitudeSum]
  refine ⟨hval i hi, hmean, ?_⟩
  rw [hval i hi, hmean, div_eq_div_iff hkpos.ne' hNpos.ne']
  constructor
  · intro heq
    by_cases hs : magnitudeSum E oprs i = 0
    · exact Or.inr hs
    · left
      have := mul_left_cancel₀ hs heq
      exact_mod_cast this
  · rintro (hN | hs)
    · rw [hN]
    · rw [hs]; simp

/-- C17 at a cohort of three records with two assets each. -/
theorem averageV1_length_witness :
    ∃ avg,
      averageV1 (sampleEnv ["PNT", "USD"])
        [sampleOpr [("PNT", 1), ("USD", 2)], sampleOpr [("PNT", 3), ("USD", -4)],
          sampleOpr [("PNT", 0), ("USD", 6)]] = some avg ∧
      avg.length = 2 :=
  averageV1_length (sampleEnv ["PNT", "USD"])
    [sampleOpr [("PNT", 1), ("USD", 2)], sampleOpr [("PNT", 3), ("USD", -4)],
      sampleOpr [("PNT", 0), ("USD", 6)]] 2 (by decide) (by decide)

/-! ## Binary64 arithmetic: rounding, signs and zeros -/

namespace F64

/-- With enough fuel `log2Fuel` brackets `n` between two consecutive powers of 2. -/
theorem log2Fuel_spec : ∀ (fuel n : Nat), n ≤ fuel → 1 ≤ n →
    2 ^ log2Fuel fuel n ≤ n ∧ n < 2 ^ (log2Fuel fuel n + 1) := by
  intro fuel
  induction fuel with
  | zero => intro n h1 h2; omega
  | succ fuel ih =>
    intro n hle hpos
    rw [log2Fuel]
    by_cases h2 : n < 2
    · have : n = 1 := by omega
      subst this
      simp
    · rw [if_neg h2]
      by_cases h64 : n < 2 ^ 64
      · rw [if_pos h64]
        have hdiv : n / 2 ≤ fuel := by omega
        have hpos' : 1 ≤ n / 2 := by omega
        obtain ⟨hl, hu⟩ := ih (n / 2) hdiv hpos'
        constructor
        · rw [pow_succ]; omega
        · rw [pow_succ]; omega
      · rw [if_neg h64]
        have hpos' : 1 ≤ n / 2 ^ 64 := Nat.div_pos (not_lt.mp h64) (by positivity)
        have hdiv : n / 2 ^ 64 ≤ fuel := by
          have : n / 2 ^ 64 < n := Nat.div_lt_self (by omega) (by norm_num)
          omega
        obtain ⟨hl, hu⟩ := ih (n / 2 ^ 64) hdiv hpos'
        have hdm := Nat.div_add_mod n (2 ^ 64)
        have hmod := Nat.mod_lt n (show 0 < 2 ^ 64 by positivity)
        constructor
        · rw [pow_add]
          calc 2 ^ log2Fuel fuel (n / 2 ^ 64) * 2 ^ 64 ≤ n / 2 ^ 64 * 2 ^ 64 :=
                Nat.mul_le_mul_right _ hl
            _ ≤ n := Nat.div_mul_le_self n (2 ^ 64)
        · have e : log2Fuel fuel (n / 2 ^ 64) + 64 + 1 = log2Fuel fuel (n / 2 ^ 64) + 1 + 64 := by
            omega
          rw [e, pow_add]
          calc n = 2 ^ 64 * (n / 2 ^ 64) + n % 2 ^ 64 := hdm.symm
            _ < 2 ^ 64 * (n / 2 ^ 64) + 2 ^ 64 := by omega
            _ = (n / 2 ^ 64 + 1) * 2 ^ 64 := by ring
            _ ≤ 2 ^ (log2Fuel fuel (n / 2 ^ 64) + 1) * 2 ^ 64 := Nat.mul_le_mul_right _ hu

/-- The power of 2 at `ilog2 n` is at most `n`. -/
theorem ilog2_le (n : Nat) (h : 1 ≤ n) : 2 ^ ilog2 n ≤ n :=
  (log2Fuel_spec n n le_rfl h).1

/-- The next power of 2 after `ilog2 n` exceeds `n`. -/
theorem lt_ilog2 (n : Nat) (h : 1 ≤ n) : n < 2 ^ (ilog2 n + 1) :=
  (log2Fuel_spec n n le_rfl h).2

/-- The power of 2 at `floorLog2 num den` is at most `num / den`. -/
theorem floorLog2_le (num den : Nat) (hn : 0 < num) (hd : 0 < den) :
    (2 : ℚ) ^ floorLog2 num den ≤ (num : ℚ) / den := by
  have hdq : (0 : ℚ) < den := by exact_mod_cast hd
  have h2 : (0 : ℚ) < 2 := by norm_num
  unfold floorLog2
  split
  · rename_i h
    rw [zpow_sub₀ (by norm_num), zpow_natCast, zpow_natCast, div_le_div_iff₀ (by positivity) hdq]
    have : ((den * 2 ^ ilog2 num : Nat) : ℚ) ≤ ((num * 2 ^ ilog2 den : Nat) : ℚ) := by
      exact_mod_cast h
    push_cast at this
    linarith
  · have ha : ((2 ^ ilog2 num : Nat) : ℚ) ≤ num := by exact_mod_cast ilog2_le num hn
    have hb : (den : ℚ) ≤ ((2 ^ (ilog2 den + 1) : Nat) : ℚ) := by
      exact_mod_cast (lt_ilog2 den hd).le
    push_cast at ha hb
    have e : (ilog2 num : Int) - ilog2 den - 1 = (ilog2 num : Int) - ((ilog2 den + 1 : Nat) : Int) := by
      push_cast; ring
    rw [e, zpow_sub₀ (by norm_num), zpow_natCast, zpow_natCast,
      div_le_div_iff₀ (by positivity) hdq]
    calc (2 : ℚ) ^ ilog2 num * den ≤ num * den := by
          apply mul_le_mul_of_nonneg_right ha hdq.le
      _ ≤ num * 2 ^ (ilog2 den + 1) := by
          apply mul_le_mul_of_nonneg_left hb (by positivity)

/-- The logarithm of a fraction is at most the difference of the logarithms. -/
theorem floorLog2_le_ilog2 (num den : Nat) :
    floorLog2 num den ≤ (ilog2 num : Int) - (ilog2 den : Int) := by
  unfold floorLog2
  split <;> omega

/-- Rounding `n / d` to the nearest integer gives 0 exactly up to one half. -/
theorem roundHalfEven_eq_zero_iff (n d : Nat) (hd : 0 < d) :
    roundHalfEven n d = 0 ↔ 2 * n ≤ d := by
  unfold roundHalfEven
  constructor
  · intro h
    split at h
    · rename_i hc
      have hn : n < d := (Nat.div_eq_zero_iff hd).mp h
      rw [Nat.mod_eq_of_lt hn] at hc
      omega
    · split at h
      · exact absurd h (Nat.succ_ne_zero _)
      · split at h
        · rename_i hc1 hc2 _
          have hn : n < d := (Nat.div_eq_zero_iff hd).mp h
          rw [Nat.mod_eq_of_lt hn] at hc1 hc2
          omega
        · exact absurd h (Nat.succ_ne_zero _)
  · intro h
    have hn : n < d := by omega
    have hdiv : n / d = 0 := Nat.div_eq_of_lt hn
    have hmod' : n % d = n := Nat.mod_eq_of_lt hn
    rw [hdiv, hmod']
    split
    · rfl
    · split
      · omega
      · rfl

/-- A power of 2 with an integer exponent, split into its positive and negative part. -/
theorem zpow_toNat_div (k : Int) :
    (2 : ℚ) ^ k.toNat / (2 : ℚ) ^ (-k).toNat = (2 : ℚ) ^ k := by
  rcases le_total 0 k with h | h
  · have h1 : (-k).toNat = 0 := by omega
    rw [h1, pow_zero, div_one, ← zpow_natCast, Int.toNat_of_nonneg h]
  · have h1 : k.toNat = 0 := by omega
    have h2 : ((-k).toNat : Int) = -k := Int.toNat_of_nonneg (by omega)
    rw [h1, pow_zero, one_div, ← zpow_natCast, h2, zpow_neg, inv_inv]

/-- The result of `round` is an infinity or a value with exponent at least `-1074`, of
the sign asked for. -/
theorem round_cases (neg : Bool) (num den : Nat) (x : Int) :
    round neg num den x = inf neg ∨
      ∃ m e, round neg num den x = fin neg m e ∧ -1074 ≤ e := by
  unfold round
  split
  · exact Or.inr ⟨_, _, rfl, le_refl _⟩
  · simp only []
    split
    · split
      · exact Or.inl rfl
      · exact Or.inr ⟨_, _, rfl, by omega⟩
    · split
      · exact Or.inl rfl
      · exact Or.inr ⟨_, _, rfl, le_max_right _ _⟩

/-- The mantissa `round` computes is 0 exactly when the value is at most `2 ^ (-1075)`. -/
theorem round_mantissa_eq_zero_iff (num den : Nat) (x : Int) (hn : 0 < num) (hd : 0 < den) :
    roundHalfEven
        (num * 2 ^ (x - max (floorLog2 num den + x - 52) (-1074)).toNat)
        (den * 2 ^ (max (floorLog2 num den + x - 52) (-1074) - x).toNat) = 0 ↔
      (num : ℚ) / den * (2 : ℚ) ^ x ≤ (2 : ℚ) ^ (-1075 : Int) := by
  have hdq : (0 : ℚ) < den := by exact_mod_cast hd
  have hnq : (0 : ℚ) < num := by exact_mod_cast hn
  have h2 : (1 : ℚ) < 2 := by norm_num
  set s : Int := max (floorLog2 num den + x - 52) (-1074) with hs
  have hs1 : -1074 ≤ s := le_max_right _ _
  have hP1 : (2 : ℚ) ^ (floorLog2 num den + x) ≤ (num : ℚ) / den * (2 : ℚ) ^ x := by
    rw [zpow_add₀ (by norm_num)]
    exact mul_le_mul_of_nonneg_right (floorLog2_le num den hn hd) (by positivity)
  rw [roundHalfEven_eq_zero_iff _ _ (by positivity)]
  -- the test on the mantissa, in rationals
  have hkey : 2 * (num * 2 ^ (x - s).toNat) ≤ den * 2 ^ (s - x).toNat ↔
      (num : ℚ) / den * (2 : ℚ) ^ x ≤ (2 : ℚ) ^ (s - 1) := by
    have hpow : (2 : ℚ) ^ (x - s).toNat / (2 : ℚ) ^ (s - x).toNat = (2 : ℚ) ^ (x - s) := by
      have := zpow_toNat_div (x - s)
      rwa [neg_sub] at this
    have hsplit : (2 : ℚ) ^ x = (2 : ℚ) ^ (x - s) * (2 : ℚ) ^ (s - 1) * 2 := by
      rw [← zpow_add₀ (by norm_num), ← zpow_add_one₀ (by norm_num)]
      congr 1; ring
    have hcast : (2 * (num * 2 ^ (x - s).toNat) ≤ den * 2 ^ (s - x).toNat) ↔
        (2 * ((num : ℚ) * (2 : ℚ) ^ (x - s).toNat) ≤ (den : ℚ) * (2 : ℚ) ^ (s - x).toNat) := by
      constructor
      · intro h; exact_mod_cast h
      · intro h; exact_mod_cast h
    rw [hcast, hsplit, ← hpow]
    have hA : (0 : ℚ) < (2 : ℚ) ^ (x - s).toNat := by positivity
    have hB : (0 : ℚ) < (2 : ℚ) ^ (s - x).toNat := by positivity
    have hC : (0 : ℚ) < (2 : ℚ) ^ (s - 1) := by positivity
    constructor
    · intro h
      have : (num : ℚ) / den * ((2 : ℚ) ^ (x - s).toNat / (2 : ℚ) ^ (s - x).toNat *
          (2 : ℚ) ^ (s - 1) * 2) =
          (2 * ((num : ℚ) * (2 : ℚ) ^ (x - s).toNat)) / ((den : ℚ) * (2 : ℚ) ^ (s - x).toNat) *
            (2 : ℚ) ^ (s - 1) := by
        field_simp
        ring
      rw [this]
      have hq : (2 * ((num : ℚ) * (2 : ℚ) ^ (x - s).toNat)) /
          ((den : ℚ) * (2 : ℚ) ^ (s - x).toNat) ≤ 1 := by
        rw [div_le_one (by positivity)]
        exact h
      calc _ ≤ 1 * (2 : ℚ) ^ (s - 1) := mul_le_mul_of_nonneg_right hq hC.le
        _ = _ := one_mul _
    · intro h
      have : (num : ℚ) / den * ((2 : ℚ) ^ (x - s).toNat / (2 : ℚ) ^ (s - x).toNat *
          (2 : ℚ) ^ (s - 1) * 2) =
          (2 * ((num : ℚ) * (2 : ℚ) ^ (x - s).toNat)) / ((den : ℚ) * (2 : ℚ) ^ (s - x).toNat) *
            (2 : ℚ) ^ (s - 1) := by
        field_simp
        ring
      rw [this] at h
      have hq : (2 * ((num : ℚ) * (2 : ℚ) ^ (x - s).toNat)) /
          ((den : ℚ) * (2 : ℚ) ^ (s - x).toNat) ≤ 1 := by
        by_contra hc
        push_neg at hc
        have := mul_lt_mul_of_pos_right hc hC
        rw [one_mul] at this
        exact absurd h (not_le.mpr this)
      rwa [div_le_one (by positivity)] at hq
  rw [hkey]
  constructor
  · intro h
    rcases max_cases (floorLog2 num den + x - 52) (-1074) with ⟨hm, _⟩ | ⟨hm, _⟩
    · -- s = L + x - 52: impossible
      exfalso
      have hlt : (2 : ℚ) ^ (s - 1) < (2 : ℚ) ^ (floorLog2 num den + x) := by
        apply zpow_lt_zpow_right₀ h2
        rw [hs, hm]; omega
      exact absurd (le_trans hP1 h) (not_le.mpr hlt)
    · have : s - 1 = -1075 := by rw [hs, hm]; norm_num
      rwa [this] at h
  · intro h
    refine le_trans h ?_
    apply zpow_le_zpow_right₀ h2.le
    omega

/-- The result of `round` is zero exactly when the value is at most `2 ^ (-1075)`:
underflow. -/
theorem round_isZero_iff (neg : Bool) (num den : Nat) (x : Int) (hd : 0 < den) :
    (round neg num den x).isZero = true ↔
      (num : ℚ) / den * (2 : ℚ) ^ x ≤ (2 : ℚ) ^ (-1075 : Int) := by
  by_cases hnum : num = 0
  · subst hnum
    simp only [round, if_true, isZero, decide_True, true_iff, Nat.cast_zero, zero_div, zero_mul]
    positivity
  · have hn : 0 < num := Nat.pos_of_ne_zero hnum
    have hm := round_mantissa_eq_zero_iff num den x hn hd
    have hdq : (0 : ℚ) < den := by exact_mod_cast hd
    have hnq : (0 : ℚ) < num := by exact_mod_cast hn
    rw [← hm]
    unfold round
    rw [if_neg hnum]
    simp only []
    split
    · rename_i h53
      rw [h53]
      split <;> simp [isZero]
    · split
      · rename_i hbig
        simp only [isZero, Bool.false_eq_true, false_iff]
        intro h0
        have hle := hm.mp h0
        have hP1 : (2 : ℚ) ^ (floorLog2 num den + x) ≤ (num : ℚ) / den * (2 : ℚ) ^ x := by
          rw [zpow_add₀ (by norm_num)]
          exact mul_le_mul_of_nonneg_right (floorLog2_le num den hn hd) (by positivity)
        have hlt : (2 : ℚ) ^ (-1075 : Int) < (2 : ℚ) ^ (floorLog2 num den + x) := by
          apply zpow_lt_zpow_right₀ (by norm_num)
          rcases max_cases (floorLog2 num den + x - 52) (-1074) with ⟨hmx, _⟩ | ⟨hmx, _⟩
          · rw [hmx] at hbig; omega
          · rw [hmx] at hbig; omega
        exact absurd (le_trans hP1 hle) (not_le.mpr hlt)
      · simp [isZero]

/-- The values `nonNeg` accepts. -/
theorem nonNeg_iff (x : F64) :
    x.nonNeg = true ↔ x = inf false ∨ ∃ m e, x = fin false m e ∧ -1074 ≤ e := by
  cases x with
  | nan => simp [nonNeg]
  | inf neg => cases neg <;> simp [nonNeg]
  | fin neg m e =>
    cases neg
    · constructor
      · intro h
        exact Or.inr ⟨m, e, rfl, by simpa [nonNeg] using h⟩
      · rintro (h | ⟨m', e', h, he⟩)
        · exact absurd h (by simp)
        · injection h with _ _ h3
          subst h3
          simpa [nonNeg] using he
    · simp [nonNeg]

/-- The values `finite` accepts. -/
theorem finite_iff (v : F64) :
    v.finite = true ↔ ∃ s m e, v = fin s m e ∧ m < 2 ^ 53 ∧ -1074 ≤ e ∧ e ≤ 971 := by
  cases v with
  | nan => simp [finite]
  | inf neg => simp [finite]
  | fin neg m e =>
    constructor
    · intro h
      exact ⟨neg, m, e, rfl, by simpa [finite] using h⟩
    · rintro ⟨s', m', e', h, hb⟩
      injection h with h1 h2 h3
      subst h1 h2 h3
      simpa [finite] using hb

/-- The integer of a clear sign bit. -/
theorem signed_false (m : Nat) : signed false m = (m : Int) := rfl

/-- The integer of a set sign bit. -/
theorem signed_true (m : Nat) : signed true m = -(m : Int) := rfl

/-- Rounding a non-negative value gives a non-negative `float64`. -/
theorem round_false_nonNeg (num den : Nat) (x : Int) : (round false num den x).nonNeg = true := by
  rcases round_cases false num den x with h | ⟨m, e, h, he⟩
  · rw [h]; rfl
  · rw [h]; simp [nonNeg, he]

/-- Only a non-zero value rounds to an infinity. -/
theorem round_eq_inf (neg s : Bool) (num den : Nat) (x : Int)
    (h : round neg num den x = inf s) : num ≠ 0 := by
  intro h0
  rw [h0] at h
  simp [round] at h

/-- The test `0 <= x` holds of every non-negative `float64`. -/
theorem zero_le_of_nonNeg (x : F64) (h : x.nonNeg = true) : le zero x = true := by
  rcases (nonNeg_iff x).mp h with rfl | ⟨m, e, rfl, _⟩
  · rfl
  · simp only [le, zero, signed_false, decide_eq_true_eq]
    simp

/-- The test `0 < a` holds of `+Inf` and of the positive finite values only. -/
theorem zero_lt_iff (a : F64) :
    lt zero a = true ↔ a = inf false ∨ ∃ m e, a = fin false m e ∧ 0 < m := by
  cases a with
  | nan => simp [lt, zero]
  | inf neg => cases neg <;> simp [lt, zero]
  | fin neg m e =>
    cases neg
    · simp only [lt, zero, signed_false, decide_eq_true_eq]
      constructor
      · intro h
        refine Or.inr ⟨m, e, rfl, ?_⟩
        by_contra hm
        have : m = 0 := by omega
        subst this
        simp at h
      · rintro (h | ⟨m', e', h, hm⟩)
        · exact absurd h (by simp)
        · injection h with _ h2 _
          subst h2
          have : 0 < m * 2 ^ (e - min (-1074) e).toNat := by positivity
          simpa using this
    · simp only [lt, zero, signed_false, signed_true, decide_eq_true_eq]
      constructor
      · intro h
        have := Int.natCast_nonneg (m * 2 ^ (e - min (-1074) e).toNat)
        have h0 : ((0 * 2 ^ (-1074 - min (-1074) e).toNat : Nat) : Int) = 0 := by simp
        omega
      · rintro (h | ⟨m', e', h, _⟩)
        · exact absurd h (by simp)
        · injection h with h1 _ _
          exact absurd h1 (by simp)

/-- The sum of two non-negative `float64` values is non-negative: it may be `+Inf`,
never NaN. -/
theorem add_nonNeg (x y : F64) (hx : x.nonNeg = true) (hy : y.nonNeg = true) :
    (add x y).nonNeg = true := by
  rcases (nonNeg_iff x).mp hx with rfl | ⟨m1, e1, rfl, h1⟩ <;>
  rcases (nonNeg_iff y).mp hy with rfl | ⟨m2, e2, rfl, h2⟩
  · rfl
  · rfl
  · rfl
  · have hadd : add (fin false m1 e1) (fin false m2 e2) =
        if ((m1 * 2 ^ (e1 - min e1 e2).toNat : Nat) : Int) +
            ((m2 * 2 ^ (e2 - min e1 e2).toNat : Nat) : Int) = 0 then fin false 0 (-1074)
        else round (decide (((m1 * 2 ^ (e1 - min e1 e2).toNat : Nat) : Int) +
            ((m2 * 2 ^ (e2 - min e1 e2).toNat : Nat) : Int) < 0))
          (((m1 * 2 ^ (e1 - min e1 e2).toNat : Nat) : Int) +
            ((m2 * 2 ^ (e2 - min e1 e2).toNat : Nat) : Int)).natAbs 1 (min e1 e2) := rfl
    rw [hadd]
    split
    · rfl
    · have hv : ¬ ((m1 * 2 ^ (e1 - min e1 e2).toNat : Nat) : Int) +
          ((m2 * 2 ^ (e2 - min e1 e2).toNat : Nat) : Int) < 0 := by
        have := Int.natCast_nonneg (m1 * 2 ^ (e1 - min e1 e2).toNat)
        have := Int.natCast_nonneg (m2 * 2 ^ (e2 - min e1 e2).toNat)
        omega
      rw [decide_eq_false hv]
      exact round_false_nonNeg _ _ _

/-- The sum of two finite values is not NaN. -/
theorem add_fin_fin (s1 s2 : Bool) (m1 m2 : Nat) (e1 e2 : Int) :
    ∃ s, add (fin s1 m1 e1) (fin s2 m2 e2) = inf s ∨
      ∃ m e, add (fin s1 m1 e1) (fin s2 m2 e2) = fin s m e := by
  simp only [add]
  split
  · exact ⟨_, Or.inr ⟨_, _, rfl⟩⟩
  · rcases round_cases (decide (signed s1 (m1 * 2 ^ (e1 - min e1 e2).toNat) +
        signed s2 (m2 * 2 ^ (e2 - min e1 e2).toNat) < 0))
        (signed s1 (m1 * 2 ^ (e1 - min e1 e2).toNat) +
          signed s2 (m2 * 2 ^ (e2 - min e1 e2).toNat)).natAbs 1 (min e1 e2) with h | ⟨m, e, h, _⟩
    · exact ⟨_, Or.inl h⟩
    · exact ⟨_, Or.inr ⟨m, e, h⟩⟩

/-- The fourth power `d * d * d * d` of a value that is not NaN is not negative. -/
theorem quartic_nonNeg (d : F64) (hd : d ≠ nan) :
    (mul (mul (mul d d) d) d).nonNeg = true := by
  cases d with
  | nan => exact absurd rfl hd
  | inf s => cases s <;> rfl
  | fin s m e =>
    have hd2 : mul (fin s m e) (fin s m e) = round false (m * m) 1 (e + e) := by
      simp [mul]
    rw [hd2]
    rcases round_cases false (m * m) 1 (e + e) with h2 | ⟨m2, e2, h2, _⟩
    · have hm : m ≠ 0 := by
        intro h0
        exact round_eq_inf false false (m * m) 1 (e + e) h2 (by simp [h0])
      rw [h2]
      simp only [mul, hm, if_false]
      cases s <;> rfl
    · rw [h2]
      have hd3 : mul (fin false m2 e2) (fin s m e) = round s (m2 * m) 1 (e2 + e) := by
        simp [mul]
      rw [hd3]
      rcases round_cases s (m2 * m) 1 (e2 + e) with h3 | ⟨m3, e3, h3, _⟩
      · have hm : m ≠ 0 := by
          intro h0
          exact round_eq_inf s s (m2 * m) 1 (e2 + e) h3 (by simp [h0])
        rw [h3]
        simp only [mul, hm, if_false]
        cases s <;> rfl
      · rw [h3]
        have hd4 : mul (fin s m3 e3) (fin s m e) = round false (m3 * m) 1 (e3 + e) := by
          simp [mul]
        rw [hd4]
        exact round_false_nonNeg _ _ _

/-- The relative deviation of a finite value from a positive finite average is not NaN. -/
theorem deviation_ne_nan (v a : F64) (hv : v.finite = true) (ha : lt zero a = true)
    (hinf : a ≠ inf false) : div (sub v a) a ≠ nan := by
  obtain ⟨sv, mv, ev, rfl, _⟩ := (finite_iff v).mp hv
  rcases (zero_lt_iff a).mp ha with rfl | ⟨ma, ea, rfl, hma⟩
  · exact absurd rfl hinf
  · have hsub : sub (fin sv mv ev) (fin false ma ea) =
        add (fin sv mv ev) (fin true ma ea) := rfl
    rw [hsub]
    obtain ⟨s, h | ⟨m, e, h⟩⟩ := add_fin_fin sv true mv ma ev ea
    · rw [h]; simp [div]
    · rw [h]
      have hne : ma ≠ 0 := by omega
      simp only [div, hne, if_false]
      rcases round_cases (xor s false) m ma (e - ea) with h' | ⟨m', e', h', _⟩
      · rw [h']; simp
      · rw [h']; simp

/-- The magnitude of a finite value is non-negative. -/
theorem abs_nonNeg_of_finite (v : F64) (hv : v.finite = true) : (abs v).nonNeg = true := by
  obtain ⟨s, m, e, rfl, _, he, _⟩ := (finite_iff v).mp hv
  simp [abs, nonNeg, he]

/-- A value is zero exactly when its magnitude is. -/
theorem abs_isZero (v : F64) : (abs v).isZero = v.isZero := by
  cases v <;> rfl

/-- The non-negative zeros. -/
theorem isZero_iff_of_nonNeg (x : F64) (hx : x.nonNeg = true) :
    x.isZero = true ↔ ∃ e, x = fin false 0 e := by
  rcases (nonNeg_iff x).mp hx with rfl | ⟨m, e, rfl, _⟩
  · simp [isZero]
  · constructor
    · intro h
      have : m = 0 := by simpa [isZero] using h
      subst this
      exact ⟨e, rfl⟩
    · rintro ⟨e', h⟩
      injection h with _ h2 _
      subst h2
      simp [isZero]

/-- A sum of non-negative `float64` values is zero only when both are: addition does not
underflow. -/
theorem add_isZero_iff (x y : F64) (hx : x.nonNeg = true) (hy : y.nonNeg = true) :
    (add x y).isZero = true ↔ x.isZero = true ∧ y.isZero = true := by
  rcases (nonNeg_iff x).mp hx with rfl | ⟨m1, e1, rfl, h1⟩ <;>
  rcases (nonNeg_iff y).mp hy with rfl | ⟨m2, e2, rfl, h2⟩
  · simp [add, isZero]
  · simp [add, isZero]
  · simp [add, isZero]
  · have hadd : add (fin false m1 e1) (fin false m2 e2) =
        if ((m1 * 2 ^ (e1 - min e1 e2).toNat : Nat) : Int) +
            ((m2 * 2 ^ (e2 - min e1 e2).toNat : Nat) : Int) = 0 then fin false 0 (-1074)
        else round (decide (((m1 * 2 ^ (e1 - min e1 e2).toNat : Nat) : Int) +
            ((m2 * 2 ^ (e2 - min e1 e2).toNat : Nat) : Int) < 0))
          (((m1 * 2 ^ (e1 - min e1 e2).toNat : Nat) : Int) +
            ((m2 * 2 ^ (e2 - min e1 e2).toNat : Nat) : Int)).natAbs 1 (min e1 e2) := rfl
    have hsum : ((m1 * 2 ^ (e1 - min e1 e2).toNat : Nat) : Int) +
        ((m2 * 2 ^ (e2 - min e1 e2).toNat : Nat) : Int) = 0 ↔ m1 = 0 ∧ m2 = 0 := by
      have hp1 : 0 < 2 ^ (e1 - min e1 e2).toNat := by positivity
      have hp2 : 0 < 2 ^ (e2 - min e1 e2).toNat := by positivity
      constructor
      · intro h
        have h' : m1 * 2 ^ (e1 - min e1 e2).toNat + m2 * 2 ^ (e2 - min e1 e2).toNat = 0 := by
          exact_mod_cast h
        have ha : m1 * 2 ^ (e1 - min e1 e2).toNat = 0 := by omega
        have hb : m2 * 2 ^ (e2 - min e1 e2).toNat = 0 := by omega
        rcases Nat.mul_eq_zero.mp ha with h0 | h0
        · rcases Nat.mul_eq_zero.mp hb with h0' | h0'
          · exact ⟨h0, h0'⟩
          · omega
        · omega
      · rintro ⟨rfl, rfl⟩
        simp
    rw [hadd]
    split
    · rename_i hz
      have := hsum.mp hz
      simp [isZero, this.1, this.2]
    · rename_i hnz
      have hrhs : ¬ (m1 = 0 ∧ m2 = 0) := fun h => hnz (hsum.mpr h)
      have hlhs : ¬ ((round (decide (((m1 * 2 ^ (e1 - min e1 e2).toNat : Nat) : Int) +
            ((m2 * 2 ^ (e2 - min e1 e2).toNat : Nat) : Int) < 0))
          (((m1 * 2 ^ (e1 - min e1 e2).toNat : Nat) : Int) +
            ((m2 * 2 ^ (e2 - min e1 e2).toNat : Nat) : Int)).natAbs 1 (min e1 e2)).isZero = true) := by
        rw [round_isZero_iff _ _ _ _ Nat.one_pos]
        intro hle
        have hnat : 1 ≤ (((m1 * 2 ^ (e1 - min e1 e2).toNat : Nat) : Int) +
            ((m2 * 2 ^ (e2 - min e1 e2).toNat : Nat) : Int)).natAbs := by
          have := Int.natAbs_pos.mpr hnz
          omega
        have hq : (1 : ℚ) ≤ ((((m1 * 2 ^ (e1 - min e1 e2).toNat : Nat) : Int) +
            ((m2 * 2 ^ (e2 - min e1 e2).toNat : Nat) : Int)).natAbs : ℚ) := by
          exact_mod_cast hnat
        have hmin : -1074 ≤ min e1 e2 := le_min h1 h2
        have hpow : (2 : ℚ) ^ (-1074 : Int) ≤ (2 : ℚ) ^ (min e1 e2) :=
          zpow_le_zpow_right₀ (by norm_num) hmin
        have hlt : (2 : ℚ) ^ (-1075 : Int) < (2 : ℚ) ^ (-1074 : Int) :=
          zpow_lt_zpow_right₀ (by norm_num) (by norm_num)
        have hpos : (0 : ℚ) < (2 : ℚ) ^ (min e1 e2) := by positivity
        have : (2 : ℚ) ^ (min e1 e2) ≤
            ((((m1 * 2 ^ (e1 - min e1 e2).toNat : Nat) : Int) +
              ((m2 * 2 ^ (e2 - min e1 e2).toNat : Nat) : Int)).natAbs : ℚ) / ((1 : Nat) : ℚ) *
              (2 : ℚ) ^ (min e1 e2) := by
          rw [Nat.cast_one, div_one]
          calc (2 : ℚ) ^ (min e1 e2) = 1 * (2 : ℚ) ^ (min e1 e2) := (one_mul _).symm
            _ ≤ _ := mul_le_mul_of_nonneg_right hq hpos.le
        exact absurd (le_trans hpow (le_trans this hle)) (not_le.mpr hlt)
      simp only [isZero, decide_eq_true_eq]
      constructor
      · intro h; exact absurd h hlhs
      · intro h; exact absurd h hrhs

/-- Both branches of lines 75-79 add the magnitude of the value to a non-negative sum. -/
theorem accumulate_eq (x v : F64) (hx : x.nonNeg = true) (hv : v.finite = true) :
    IEEE.accumulate x v = add x (abs v) := by
  obtain ⟨s, m, e, rfl, _, he, _⟩ := (finite_iff v).mp hv
  unfold IEEE.accumulate
  cases s
  · have hle : le zero (fin false m e) = true :=
      zero_le_of_nonNeg _ (by simp [nonNeg, he])
    rw [if_pos hle]
    rfl
  · by_cases hm : m = 0
    · subst hm
      have hle : le zero (fin true 0 e) = true := by
        simp [le, zero, signed]
      rw [if_pos hle]
      rcases (nonNeg_iff x).mp hx with rfl | ⟨m1, e1, rfl, _⟩
      · rfl
      · simp [add, abs, signed]
    · have hle : ¬ le zero (fin true m e) = true := by
        simp only [le, zero, signed_false, signed_true, decide_eq_true_eq]
        have hpos : 0 < m * 2 ^ (e - min (-1074) e).toNat := by positivity
        have hc : (0 : Int) < ((m * 2 ^ (e - min (-1074) e).toNat : Nat) : Int) := by
          exact_mod_cast hpos
        have h0 : ((0 * 2 ^ (-1074 - min (-1074) e).toNat : Nat) : Int) = 0 := by simp
        omega
      rw [if_neg hle]
      rfl

/-- The conversion of a positive `int` is not zero. -/
theorem ofNat_ne_zero (n : Nat) (hn : 1 ≤ n) :
    ofNat n = inf false ∨ ∃ m e, ofNat n = fin false m e ∧ 0 < m := by
  rcases round_cases false n 1 0 with h | ⟨m, e, h, _⟩
  · exact Or.inl h
  · refine Or.inr ⟨m, e, h, ?_⟩
    by_contra hm
    have hm0 : m = 0 := by omega
    subst hm0
    have hz : (round false n 1 0).isZero = true := by rw [h]; simp [isZero]
    rw [round_isZero_iff _ _ _ _ Nat.one_pos] at hz
    have hq : (1 : ℚ) ≤ (n : ℚ) := by exact_mod_cast hn
    have hlt : (2 : ℚ) ^ (-1075 : Int) < (2 : ℚ) ^ (0 : Int) :=
      zpow_lt_zpow_right₀ (by norm_num) (by norm_num)
    simp only [Nat.cast_one, div_one, zpow_zero, mul_one] at hz hlt
    exact absurd (le_trans hq hz) (not_le.mpr hlt)

/-- A number below `2 ^ b` has a logarithm below `b`. -/
theorem ilog2_lt_of_lt (n b : Nat) (hn : 1 ≤ n) (h : n < 2 ^ b) : ilog2 n < b := by
  by_contra hc
  have h1 : 2 ^ b ≤ 2 ^ ilog2 n := Nat.pow_le_pow_right (by norm_num) (not_lt.mp hc)
  have h2 := ilog2_le n hn
  omega

/-- The conversion of a positive `int` (below `2 ^ 63`) is a positive finite value. -/
theorem ofNat_pos (k : Nat) (h1 : 1 ≤ k) (h63 : k < 2 ^ 63) :
    ∃ m e, ofNat k = fin false m e ∧ 0 < m := by
  rcases ofNat_ne_zero k h1 with h | h
  · exfalso
    have hk0 : k ≠ 0 := by omega
    have hlog : floorLog2 k 1 ≤ 62 := by
      have := floorLog2_le_ilog2 k 1
      have := ilog2_lt_of_lt k 63 h1 h63
      have h10 : ilog2 1 = 0 := by decide
      rw [h10] at *
      omega
    have hs : max (floorLog2 k 1 + 0 - 52) (-1074) ≤ 10 := by
      apply max_le <;> omega
    unfold ofNat round at h
    rw [if_neg hk0] at h
    simp only [] at h
    split at h
    · split at h
      · omega
      · exact absurd h (by simp)
    · split at h
      · omega
      · exact absurd h (by simp)
  · exact h

/-- Zero over `float64(n)` is `+0` for `n ≥ 1`. -/
theorem div_zero_ofNat (e : Int) (n : Nat) (hn : 1 ≤ n) :
    div (fin false 0 e) (ofNat n) = fin false 0 (-1074) := by
  rcases ofNat_ne_zero n hn with h | ⟨m, e', h, hm⟩
  · rw [h]; rfl
  · rw [h]
    have : m ≠ 0 := by omega
    simp [div, this, round]

/-- A non-negative value over a positive finite one is non-negative, and is zero exactly
when the numerator is finite and the quotient at most `2 ^ (-1075)`. -/
theorem div_pos_spec (S : F64) (mk : Nat) (ek : Int) (hS : S.nonNeg = true) (hmk : 0 < mk) :
    (div S (fin false mk ek)).nonNeg = true ∧
      ((div S (fin false mk ek)).isZero = true ↔
        ∃ m e, S = fin false m e ∧
          (m : ℚ) * (2 : ℚ) ^ e / toRat (fin false mk ek) ≤ (2 : ℚ) ^ (-1075 : Int)) := by
  have hne : mk ≠ 0 := by omega
  rcases (nonNeg_iff S).mp hS with rfl | ⟨m, e, rfl, _⟩
  · constructor
    · rfl
    · simp [div, isZero]
  · have hdiv : div (fin false m e) (fin false mk ek) = round false m mk (e - ek) := by
      simp [div, hne]
    rw [hdiv]
    refine ⟨round_false_nonNeg _ _ _, ?_⟩
    rw [round_isZero_iff _ _ _ _ hmk]
    have hmkq : (mk : ℚ) ≠ 0 := by exact_mod_cast hne
    have hval : (m : ℚ) * (2 : ℚ) ^ e / toRat (fin false mk ek) =
        (m : ℚ) / mk * (2 : ℚ) ^ (e - ek) := by
      simp only [toRat, Bool.false_eq_true, if_false]
      rw [zpow_sub₀ (by norm_num)]
      field_simp
    constructor
    · intro h
      exact ⟨m, e, rfl, by rw [hval]; exact h⟩
    · rintro ⟨m', e', heq, h⟩
      injection heq with _ h2 h3
      subst h2 h3
      rw [hval] at h
      exact h

/-- Among the non-negative values the test `0 < x` fails for the zeros only. -/
theorem zero_lt_eq_false_iff (x : F64) (hx : x.nonNeg = true) :
    lt zero x = false ↔ x.isZero = true := by
  rcases (nonNeg_iff x).mp hx with rfl | ⟨m, e, rfl, _⟩
  · simp [lt, zero, isZero]
  · have h := zero_lt_iff (fin false m e)
    by_cases hm : m = 0
    · subst hm
      have : ¬ lt zero (fin false 0 e) = true := by
        rw [h]
        rintro (h' | ⟨m', e', h', hpos⟩)
        · exact absurd h' (by simp)
        · injection h' with _ h2 _
          omega
      simp only [isZero, decide_True, iff_true]
      exact Bool.eq_false_iff.mpr this
    · have : lt zero (fin false m e) = true := h.mpr (Or.inr ⟨m, e, rfl, by omega⟩)
      simp [isZero, hm, this]


/-- NaN plus anything is NaN. -/
theorem nan_add (y : F64) : add nan y = nan := by
  cases y <;> rfl

/-- The relative deviation from an average of `+Inf` is NaN, for every value. -/
theorem deviation_inf (v : F64) : div (sub v (inf false)) (inf false) = nan := by
  cases v with
  | nan => rfl
  | inf s => cases s <;> rfl
  | fin s m e => rfl

/-- The model on sums and quotients whose `float64` results are well known: `0.1 + 0.2`
is `0.30000000000000004` and not `0.3`; `1e16 + 1` is `1e16`; `1e308 + 1e308` is
`+Inf`; `5e-324 / 2` and `5e-324 / 3` are 0; `1 / 3` is `6004799503160661 * 2 ^ (-54)`;
the largest finite value plus half a unit in its last place overflows, by the tie going
to even. -/
theorem arithmetic_samples :
    add (ofDecimal false 1 10) (ofDecimal false 2 10) =
      ofDecimal false 30000000000000004 (10 ^ 17) ∧
    add (ofDecimal false 1 10) (ofDecimal false 2 10) ≠ ofDecimal false 3 10 ∧
    add (ofDecimal false (10 ^ 16) 1) (ofNat 1) = ofDecimal false (10 ^ 16) 1 ∧
    add (ofDecimal false (10 ^ 308) 1) (ofDecimal false (10 ^ 308) 1) = inf false ∧
    div (ofDecimal false 5 (10 ^ 324)) (ofNat 2) = zero ∧
    div (ofDecimal false 5 (10 ^ 324)) (ofNat 3) = zero ∧
    div (ofNat 1) (ofNat 3) = fin false 6004799503160661 (-54) ∧
    add (fin false (2 ^ 53 - 1) 971) (fin false 1 970) = inf false := by
  set_option exponentiation.threshold 5000 in
  set_option maxRecDepth 20000 in
  decide

end F64

namespace IEEE
open F64

set_option exponentiation.threshold 5000
set_option maxRecDepth 20000

/-! ## The grader in binary64 -/

/-- Once the grade is NaN the loop of `gradeV1` leaves it NaN. -/
theorem ieee_gradeLoop_nan (assets : List Asset) :
    ∀ (i : Nat) (avg : List F64), i + assets.length ≤ avg.length →
      gradeLoop assets i avg nan = some nan := by
  induction assets with
  | nil => intro i avg _; rfl
  | cons x rest ih =>
    intro i avg hlen
    have hi : i < avg.length := by simp at hlen; omega
    have hget : avg[i]? = some avg[i] := List.getElem?_eq_getElem hi
    have hrest : i + 1 + rest.length ≤ avg.length := by simp at hlen; omega
    rw [gradeLoop, hget]
    simp only []
    split
    · rw [nan_add]; exact ih (i + 1) avg hrest
    · exact ih (i + 1) avg hrest

/-- An entry `+Inf` of `avg` at a position the loop of `gradeV1` visits makes the grade
NaN, whatever it was before. -/
theorem ieee_gradeLoop_inf (assets : List Asset) :
    ∀ (i : Nat) (avg : List F64) (g : F64), i + assets.length ≤ avg.length →
      (∃ j, j < assets.length ∧ avg[i + j]? = some (inf false)) →
      gradeLoop assets i avg g = some nan := by
  induction assets with
  | nil => intro i avg g _ ⟨j, hj, _⟩; simp at hj
  | cons x rest ih =>
    intro i avg g hlen ⟨j, hj, hinf⟩
    have hi : i < avg.length := by simp at hlen; omega
    have hrest : i + 1 + rest.length ≤ avg.length := by simp at hlen; omega
    cases j with
    | zero =>
      rw [gradeLoop]
      simp only [Nat.add_zero] at hinf
      rw [hinf]
      have hpos : F64.lt zero (inf false) = true := rfl
      simp only [hpos, if_true, deviation_inf]
      have hnan : F64.add g (F64.mul (F64.mul (F64.mul nan nan) nan) nan) = nan := by
        cases g <;> rfl
      rw [hnan]
      exact ieee_gradeLoop_nan rest (i + 1) avg hrest
    | succ j =>
      have hget : avg[i]? = some avg[i] := List.getElem?_eq_getElem hi
      have hex : ∃ j', j' < rest.length ∧ avg[i + 1 + j']? = some (inf false) := by
        refine ⟨j, by simpa using hj, ?_⟩
        rw [← hinf]; congr 1; omega
      rw [gradeLoop, hget]
      simp only []
      split
      · exact ih (i + 1) avg _ hrest hex
      · exact ih (i + 1) avg g hrest hex

/-- The loop of `gradeV1` keeps a non-negative grade non-negative when no entry of `avg`
at a position it visits is `+Inf` and the asset values are finite. -/
theorem ieee_gradeLoop_nonNeg (assets : List Asset) :
    ∀ (i : Nat) (avg : List F64) (g : F64), i + assets.length ≤ avg.length →
      g.nonNeg = true → (∀ j, j < assets.length → avg[i + j]? ≠ some (inf false)) →
      (∀ x ∈ assets, x.Value.finite = true) →
      ∃ g', gradeLoop assets i avg g = some g' ∧ g'.nonNeg = true := by
  induction assets with
  | nil => intro i avg g _ hg _ _; exact ⟨g, rfl, hg⟩
  | cons x rest ih =>
    intro i avg g hlen hg havg hval
    have hi : i < avg.length := by simp at hlen; omega
    have hget : avg[i]? = some avg[i] := List.getElem?_eq_getElem hi
    have hne : avg[i] ≠ inf false := by
      intro h
      have h0 := havg 0 (by simp)
      rw [Nat.add_zero, hget, h] at h0
      exact h0 rfl
    have hrest : i + 1 + rest.length ≤ avg.length := by simp at hlen; omega
    have hvalr : ∀ y ∈ rest, y.Value.finite = true :=
      fun y hy => hval y (List.mem_cons_of_mem _ hy)
    have havgr : ∀ j, j < rest.length → avg[i + 1 + j]? ≠ some (inf false) := by
      intro j hj
      have hj1 := havg (j + 1) (by simpa using hj)
      have e : i + (j + 1) = i + 1 + j := by omega
      rwa [e] at hj1
    rw [gradeLoop, hget]
    simp only []
    split
    · rename_i hpos
      apply ih (i + 1) avg _ hrest _ havgr hvalr
      apply add_nonNeg _ _ hg
      apply quartic_nonNeg
      exact deviation_ne_nan _ _ (hval x (List.mem_cons_self _ _)) hpos hne
    · exact ih (i + 1) avg g hrest hg havgr hvalr

/-- C12, amended: for every `avg` and every record whose ordered asset list is no longer
than `avg` and whose asset values are finite, `gradeV1` returns a grade `g`, and
`0 <= g` holds exactly when `avg` has no `+Inf` entry at a position of the record (the
grade may then be `+Inf`), whatever the signs of the other entries of `avg` and of the
asset values; with a `+Inf` entry at such a position the grade is NaN. -/
theorem ieee_gradeV1_nonneg (avg : List F64) (opr : GradingOPR)
    (hlen : opr.OrderedAssets.length ≤ avg.length)
    (hval : ∀ x ∈ opr.OrderedAssets, x.Value.finite = true) :
    ∃ g opr', gradeV1 avg opr = some (g, opr') ∧
      (F64.le zero g = true ↔
        ∀ i, i < opr.OrderedAssets.length → avg.getD i zero ≠ inf false) ∧
      (g = nan ↔ ∃ i, i < opr.OrderedAssets.length ∧ avg.getD i zero = inf false) := by
  have hget : ∀ i, i < opr.OrderedAssets.length → avg[0 + i]? = some (avg.getD i zero) := by
    intro i hi
    have hi' : i < avg.length := by omega
    rw [Nat.zero_add, List.getD_eq_getElem?_getD, List.getElem?_eq_getElem hi']
    rfl
  by_cases hinf : ∃ i, i < opr.OrderedAssets.length ∧ avg.getD i zero = inf false
  · obtain ⟨i, hi, hi2⟩ := hinf
    have hg := ieee_gradeLoop_inf opr.OrderedAssets 0 avg zero (by simpa using hlen)
      ⟨i, hi, by rw [hget i hi, hi2]⟩
    refine ⟨nan, { opr with Grade := nan }, by simp [gradeV1, hg], ?_, ?_⟩
    · constructor
      · intro h; exact absurd h (by decide)
      · intro h; exact absurd hi2 (h i hi)
    · exact ⟨fun _ => ⟨i, hi, hi2⟩, fun _ => rfl⟩
  · have hall : ∀ i, i < opr.OrderedAssets.length → avg.getD i zero ≠ inf false :=
      fun i hi h => hinf ⟨i, hi, h⟩
    obtain ⟨g, hg, hnn⟩ := ieee_gradeLoop_nonNeg opr.OrderedAssets 0 avg zero
      (by simpa using hlen) rfl
      (by intro j hj h; rw [hget j hj] at h; exact hall j hj (Option.some.inj h)) hval
    refine ⟨g, { opr with Grade := g }, by simp [gradeV1, hg], ?_, ?_⟩
    · exact ⟨fun _ => hall, fun _ => zero_le_of_nonNeg g hnn⟩
    · constructor
      · intro h; rw [h] at hnn; exact absurd hnn (by decide)
      · intro h; exact absurd h hinf

/-- C12, amended, at an average with a zero, a negative and a positive entry and
negative asset values. -/
theorem ieee_gradeV1_nonneg_witness :
    ∃ g opr', gradeV1 [zero, F64.neg (ofNat 2), ofNat 5]
        (sampleOpr [F64.neg (ofNat 3), F64.neg (ofNat 4), F64.neg (ofNat 5)]) =
        some (g, opr') ∧
      (F64.le zero g = true ↔
        ∀ i, i < (sampleOpr [F64.neg (ofNat 3), F64.neg (ofNat 4),
            F64.neg (ofNat 5)]).OrderedAssets.length →
          [zero, F64.neg (ofNat 2), ofNat 5].getD i zero ≠ inf false) ∧
      (g = nan ↔
        ∃ i, i < (sampleOpr [F64.neg (ofNat 3), F64.neg (ofNat 4),
            F64.neg (ofNat 5)]).OrderedAssets.length ∧
          [zero, F64.neg (ofNat 2), ofNat 5].getD i zero = inf false) :=
  ieee_gradeV1_nonneg [zero, F64.neg (ofNat 2), ofNat 5]
    (sampleOpr [F64.neg (ofNat 3), F64.neg (ofNat 4), F64.neg (ofNat 5)])
    (by decide) (by decide)

/-- C12, as stated, fails in `float64`: two records that report `1e308` for their one
asset make `averageV1` return `[+Inf]` (the sum overflows), and `gradeV1` of that
average and either record computes `(1e308 - Inf) / Inf`, which is NaN; NaN is not
`>= 0`. -/
theorem ieee_gradeV1_nan_counterexample :
    huge = fin false 5010420900022432 971 ∧ huge.finite = true ∧
    averageV1 [sampleOpr [huge], sampleOpr [huge]] = some [inf false] ∧
    (gradeV1 [inf false] (sampleOpr [huge])).map Prod.fst = some nan ∧
    F64.le zero nan = false := by
  decide

/-! ## The aggregator in binary64 -/

/-- One step of the inner loop of `averageV1`, with the two branches as `accumulate`. -/
theorem ieee_sumAssets_cons (a : Asset) (rest : List Asset) (i : Nat) (avg : List F64) :
    sumAssets (a :: rest) i avg =
      match avg[i]? with
      | none => none
      | some x => sumAssets rest (i + 1) (avg.set i (accumulate x a.Value)) := by
  rw [sumAssets]
  cases avg[i]? with
  | none => rfl
  | some x =>
    simp only [accumulate]
    split <;> rfl

/-- The inner loop of `averageV1` does not panic when the assets fit into `avg` from
position `i` on, keeps the length, and applies `accumulate` at the positions it visits. -/
theorem ieee_sumAssets_spec (assets : List Asset) :
    ∀ (i : Nat) (avg : List F64), i + assets.length ≤ avg.length →
      ∃ avg', sumAssets assets i avg = some avg' ∧ avg'.length = avg.length ∧
        ∀ p, avg'[p]? =
          if i ≤ p then
            match assets[p - i]? with
            | some a => (avg[p]?).map fun x => accumulate x a.Value
            | none => avg[p]?
          else avg[p]? := by
  induction assets with
  | nil =>
    intro i avg _
    refine ⟨avg, rfl, rfl, ?_⟩
    intro p
    split <;> simp
  | cons a rest ih =>
    intro i avg h
    have hi : i < avg.length := by simp at h; omega
    have hget : avg[i]? = some avg[i] := List.getElem?_eq_getElem hi
    rw [ieee_sumAssets_cons, hget]
    simp only []
    obtain ⟨avg', h1, h2, h3⟩ := ih (i + 1) (avg.set i (accumulate avg[i] a.Value))
      (by simp at h ⊢; omega)
    refine ⟨avg', h1, by simpa using h2, ?_⟩
    intro p
    rw [h3 p]
    rcases lt_trichotomy p i with hlt | heq | hgt
    · have c1 : ¬ i + 1 ≤ p := by omega
      have c2 : ¬ i ≤ p := by omega
      have c3 : i ≠ p := by omega
      rw [if_neg c1, if_neg c2, List.getElem?_set_ne c3]
    · subst heq
      have c1 : ¬ p + 1 ≤ p := by omega
      rw [if_neg c1, if_pos (le_refl p)]
      simp [hget, hi]
    · have c1 : i + 1 ≤ p := by omega
      have c2 : i ≤ p := by omega
      have c3 : i ≠ p := by omega
      have c4 : p - i = (p - (i + 1)) + 1 := by omega
      rw [if_pos c1, if_pos c2, c4, List.getElem?_cons_succ, List.getElem?_set_ne c3]

/-- The outer loop of `averageV1` does not panic when no record has more assets than
`avg` has entries, and folds `accumulateAt` over the cohort at every position. -/
theorem ieee_sumOprs_spec (oprs : List GradingOPR) :
    ∀ (avg : List F64), (∀ o ∈ oprs, o.OrderedAssets.length ≤ avg.length) →
      ∃ avg', sumOprs oprs avg = some avg' ∧ avg'.length = avg.length ∧
        ∀ p, avg'[p]? = (avg[p]?).map fun x => oprs.foldl (fun acc o => accumulateAt acc o p) x := by
  induction oprs with
  | nil =>
    intro avg _
    refine ⟨avg, rfl, rfl, ?_⟩
    intro p
    cases avg[p]? <;> rfl
  | cons o rest ih =>
    intro avg h
    obtain ⟨avg1, h1, h2, h3⟩ := ieee_sumAssets_spec o.OrderedAssets 0 avg
      (by simpa using h o (List.mem_cons_self _ _))
    obtain ⟨avg', h1', h2', h3'⟩ := ih avg1 (by
      intro o' ho'
      rw [h2]
      exact h o' (List.mem_cons_of_mem _ ho'))
    refine ⟨avg', by rw [sumOprs, h1]; exact h1', by rw [h2', h2], ?_⟩
    intro p
    rw [h3' p, h3 p]
    simp only [Nat.zero_le, if_true, Nat.sub_zero, List.foldl_cons]
    cases hp : avg[p]? with
    | none =>
      cases o.OrderedAssets[p]? <;> simp
    | some x =>
      simp only [accumulateAt]
      cases o.OrderedAssets[p]? <;> simp

/-- The entries of `averageV1` on a cohort with `k` assets per record: the accumulated
sum over `float64(k)`. -/
theorem ieee_averageV1_spec (oprs : List GradingOPR) (k : Nat) (hne : oprs ≠ [])
    (hk : ∀ o ∈ oprs, o.OrderedAssets.length = k) :
    ∃ avg, averageV1 oprs = some avg ∧ avg.length = k ∧
      ∀ p, p < k → avg[p]? =
        some (F64.div (oprs.foldl (fun acc o => accumulateAt acc o p) zero) (ofNat k)) := by
  cases oprs with
  | nil => exact absurd rfl hne
  | cons o0 rest =>
    have h0 : o0.OrderedAssets.length = k := hk o0 (List.mem_cons_self _ _)
    obtain ⟨avg', h1, h2, h3⟩ := ieee_sumOprs_spec (o0 :: rest) (List.replicate k zero)
      (by intro o ho; rw [hk o ho]; simp)
    have hlen : avg'.length = k := by simpa using h2
    refine ⟨avg'.map fun x => F64.div x (ofNat avg'.length), ?_, by simpa using hlen, ?_⟩
    · simp only [averageV1, h0, h1]
    · intro p hp
      rw [List.getElem?_map, h3 p, hlen]
      simp [List.getElem?_replicate, hp]

/-- The asset at a position in range and the value read there. -/
theorem ieee_valueAt_getElem (o : GradingOPR) (p : Nat) (hp : p < o.OrderedAssets.length) :
    ∃ a, o.OrderedAssets[p]? = some a ∧ a ∈ o.OrderedAssets ∧ a.Value = valueAt o p := by
  refine ⟨o.OrderedAssets[p], List.getElem?_eq_getElem hp, List.getElem_mem hp, ?_⟩
  simp [valueAt, List.getD_eq_getElem?_getD, List.getElem?_eq_getElem hp]

/-- The sum `averageV1` accumulates at position `p`, started from a non-negative `x`, is
the left-to-right `float64` sum of the magnitudes; it is non-negative, and zero exactly
when `x` and every value at `p` are. -/
theorem ieee_foldl_accumulateAt (oprs : List GradingOPR) (p : Nat) :
    ∀ (x : F64), x.nonNeg = true →
      (∀ o ∈ oprs, p < o.OrderedAssets.length) →
      (∀ o ∈ oprs, ∀ a ∈ o.OrderedAssets, a.Value.finite = true) →
      oprs.foldl (fun acc o => accumulateAt acc o p) x =
          oprs.foldl (fun acc o => F64.add acc (F64.abs (valueAt o p))) x ∧
        (oprs.foldl (fun acc o => F64.add acc (F64.abs (valueAt o p))) x).nonNeg = true ∧
        ((oprs.foldl (fun acc o => F64.add acc (F64.abs (valueAt o p))) x).isZero = true ↔
          x.isZero = true ∧ ∀ o ∈ oprs, (valueAt o p).isZero = true) := by
  induction oprs with
  | nil => intro x hx _ _; simp [hx]
  | cons o rest ih =>
    intro x hx hlen hval
    obtain ⟨a, ha, hmem, hav⟩ := ieee_valueAt_getElem o p (hlen o (List.mem_cons_self _ _))
    have hfin : (valueAt o p).finite = true := by
      rw [← hav]; exact hval o (List.mem_cons_self _ _) a hmem
    have hstep : accumulateAt x o p = F64.add x (F64.abs (valueAt o p)) := by
      simp only [accumulateAt, ha, hav]
      exact accumulate_eq x _ hx hfin
    have hnn : (F64.add x (F64.abs (valueAt o p))).nonNeg = true :=
      add_nonNeg _ _ hx (abs_nonNeg_of_finite _ hfin)
    obtain ⟨h1, h2, h3⟩ := ih (F64.add x (F64.abs (valueAt o p))) hnn
      (fun o' ho' => hlen o' (List.mem_cons_of_mem _ ho'))
      (fun o' ho' => hval o' (List.mem_cons_of_mem _ ho'))
    simp only [List.foldl_cons, hstep]
    refine ⟨h1, h2, ?_⟩
    rw [h3, add_isZero_iff _ _ hx (abs_nonNeg_of_finite _ hfin), abs_isZero]
    simp only [List.forall_mem_cons]
    tauto

/-- The sum `averageV1` accumulates at position `p` is `magnitudeSum`; it is
non-negative, and zero exactly when every record reports zero there. -/
theorem ieee_magnitudeSum_spec (oprs : List GradingOPR) (p : Nat)
    (hlen : ∀ o ∈ oprs, p < o.OrderedAssets.length)
    (hval : ∀ o ∈ oprs, ∀ a ∈ o.OrderedAssets, a.Value.finite = true) :
    oprs.foldl (fun acc o => accumulateAt acc o p) zero = magnitudeSum oprs p ∧
      (magnitudeSum oprs p).nonNeg = true ∧
      ((magnitudeSum oprs p).isZero = true ↔ ∀ o ∈ oprs, (valueAt o p).isZero = true) := by
  obtain ⟨h1, h2, h3⟩ := ieee_foldl_accumulateAt oprs p zero rfl hlen hval
  refine ⟨h1, h2, ?_⟩
  rw [magnitudeSum, h3]
  simp [zero, isZero]

/-- The entries of `averageV1` for finite asset values: `magnitudeSum` over
`float64(k)`. -/
theorem ieee_averageV1_entries (oprs : List GradingOPR) (k : Nat) (hne : oprs ≠ [])
    (hk : ∀ o ∈ oprs, o.OrderedAssets.length = k)
    (hval : ∀ o ∈ oprs, ∀ a ∈ o.OrderedAssets, a.Value.finite = true) :
    ∃ avg, averageV1 oprs = some avg ∧ avg.length = k ∧
      ∀ i, i < k → avg.getD i zero = F64.div (magnitudeSum oprs i) (ofNat k) := by
  obtain ⟨avg, h1, h2, h3⟩ := ieee_averageV1_spec oprs k hne hk
  refine ⟨avg, h1, h2, ?_⟩
  intro i hi
  have hsum := (ieee_magnitudeSum_spec oprs i (fun o ho => by rw [hk o ho]; exact hi) hval).1
  rw [List.getD_eq_getElem?_getD, h3 i hi, hsum]
  rfl

/-- C19, amended: on a non-empty cohort whose records all have `k` ordered assets with
finite values, every entry of the result of `averageV1` satisfies `0 <= avg[i]` (it may
be `+Inf`, it is not NaN); the entry at `i` is 0 exactly when every record has the value
0 at `i` or the quotient underflows, the sum at `i` over `float64(k)` being at most
`2 ^ (-1075)`; and the test `avg[i] > 0` of `gradeV1` fails exactly at the entries that
are 0. -/
theorem ieee_averageV1_nonneg_zero_iff (oprs : List GradingOPR) (k : Nat) (hne : oprs ≠ [])
    (hk : ∀ o ∈ oprs, o.OrderedAssets.length = k) (hk63 : k < 2 ^ 63)
    (hval : ∀ o ∈ oprs, ∀ a ∈ o.OrderedAssets, a.Value.finite = true) :
    ∃ avg, averageV1 oprs = some avg ∧ avg.length = k ∧
      ∀ i, i < k →
        F64.le zero (avg.getD i zero) = true ∧
        ((avg.getD i zero).isZero = true ↔
          (∀ o ∈ oprs, (valueAt o i).isZero = true) ∨
          ∃ m e, magnitudeSum oprs i = fin false m e ∧ 0 < m ∧
            (m : ℚ) * (2 : ℚ) ^ e / toRat (ofNat k) ≤ (2 : ℚ) ^ (-1075 : Int)) ∧
        (F64.lt zero (avg.getD i zero) = false ↔ (avg.getD i zero).isZero = true) := by
  obtain ⟨avg, h1, h2, h3⟩ := ieee_averageV1_entries oprs k hne hk hval
  refine ⟨avg, h1, h2, ?_⟩
  intro i hi
  obtain ⟨_, hnn, hzero⟩ :=
    ieee_magnitudeSum_spec oprs i (fun o ho => by rw [hk o ho]; exact hi) hval
  obtain ⟨mk, ek, hof, hmk⟩ := ofNat_pos k (by omega) hk63
  obtain ⟨hdnn, hdz⟩ := div_pos_spec (magnitudeSum oprs i) mk ek hnn hmk
  rw [h3 i hi, hof]
  refine ⟨zero_le_of_nonNeg _ hdnn, ?_, zero_lt_eq_false_iff _ hdnn⟩
  rw [hdz]
  constructor
  · rintro ⟨m, e, hS, hle⟩
    by_cases hm : m = 0
    · left
      rw [← hzero, hS, hm]
      simp [isZero]
    · right
      exact ⟨m, e, hS, by omega, hle⟩
  · rintro (hall | ⟨m, e, hS, _, hle⟩)
    · have hz := hzero.mpr hall
      obtain ⟨e, hS⟩ := (isZero_iff_of_nonNeg _ hnn).mp hz
      refine ⟨0, e, hS, ?_⟩
      simp only [Nat.cast_zero, zero_mul, zero_div]
      positivity
    · exact ⟨m, e, hS, hle⟩

/-- The entries of the mean magnitude. -/
theorem ieee_meanMagnitude_getD (oprs : List GradingOPR) (k : Nat) (hne : oprs ≠ [])
    (hk : ∀ o ∈ oprs, o.OrderedAssets.length = k) (i : Nat) (hi : i < k) :
    (meanMagnitude oprs).getD i zero =
      F64.div (magnitudeSum oprs i) (ofNat oprs.length) := by
  cases oprs with
  | nil => exact absurd rfl hne
  | cons o0 rest =>
    have h0 : o0.OrderedAssets.length = k := hk o0 (List.mem_cons_self _ _)
    simp only [meanMagnitude, h0]
    rw [List.getD_eq_getElem?_getD, List.getElem?_map, List.getElem?_range hi]
    rfl

/-- C20, amended: on a non-empty cohort of `N` records with `k` ordered assets each, all
values finite, the entry of `averageV1` at position `i` is the `float64` sum of the
magnitudes at `i`, added in cohort order, divided by `float64(k)`, the number of assets,
while the mean magnitude divides the same sum by `float64(N)`; the two agree at `i`
whenever `N = k` or the sum at `i` is 0. -/
theorem ieee_averageV1_divisor (oprs : List GradingOPR) (k : Nat) (hne : oprs ≠ [])
    (hk : ∀ o ∈ oprs, o.OrderedAssets.length = k)
    (hval : ∀ o ∈ oprs, ∀ a ∈ o.OrderedAssets, a.Value.finite = true) :
    ∃ avg, averageV1 oprs = some avg ∧ avg.length = k ∧
      ∀ i, i < k →
        avg.getD i zero = F64.div (magnitudeSum oprs i) (ofNat k) ∧
        (meanMagnitude oprs).getD i zero =
          F64.div (magnitudeSum oprs i) (ofNat oprs.length) ∧
        (oprs.length = k ∨ (magnitudeSum oprs i).isZero = true →
          avg.getD i zero = (meanMagnitude oprs).getD i zero) := by
  obtain ⟨avg, h1, h2, h3⟩ := ieee_averageV1_entries oprs k hne hk hval
  refine ⟨avg, h1, h2, ?_⟩
  intro i hi
  have hmean := ieee_meanMagnitude_getD oprs k hne hk i hi
  refine ⟨h3 i hi, hmean, ?_⟩
  rintro (hN | hz)
  · rw [h3 i hi, hmean, hN]
  · obtain ⟨_, hnn, _⟩ :=
      ieee_magnitudeSum_spec oprs i (fun o ho => by rw [hk o ho]; exact hi) hval
    obtain ⟨e, hS⟩ := (isZero_iff_of_nonNeg _ hnn).mp hz
    have hNpos : 1 ≤ oprs.length := List.length_pos.mpr hne
    rw [h3 i hi, hmean, hS, div_zero_ofNat e k (by omega), div_zero_ofNat e _ hNpos]

/-- C19, amended, at a cohort of two records that both report 0 for the first asset. -/
theorem ieee_averageV1_nonneg_zero_iff_witness :
    ∃ avg, averageV1 [sampleOpr [zero, ofNat 2], sampleOpr [zero, F64.neg (ofNat 4)]] =
        some avg ∧ avg.length = 2 ∧
      ∀ i, i < 2 →
        F64.le zero (avg.getD i zero) = true ∧
        ((avg.getD i zero).isZero = true ↔
          (∀ o ∈ [sampleOpr [zero, ofNat 2], sampleOpr [zero, F64.neg (ofNat 4)]],
            (valueAt o i).isZero = true) ∨
          ∃ m e, magnitudeSum [sampleOpr [zero, ofNat 2], sampleOpr [zero, F64.neg (ofNat 4)]]
              i = fin false m e ∧ 0 < m ∧
            (m : ℚ) * (2 : ℚ) ^ e / toRat (ofNat 2) ≤ (2 : ℚ) ^ (-1075 : Int)) ∧
        (F64.lt zero (avg.getD i zero) = false ↔ (avg.getD i zero).isZero = true) :=
  ieee_averageV1_nonneg_zero_iff
    [sampleOpr [zero, ofNat 2], sampleOpr [zero, F64.neg (ofNat 4)]] 2
    (by decide) (by decide) (by decide) (by decide)

/-- C19, as stated, fails in `float64`: for the cohort of one record with two assets
that both report `5e-324`, the least positive value, `averageV1` returns `[0, 0]`
(`5e-324 / 2` rounds to 0), although the record reports a non-zero value at both
positions; the test `avg[i] > 0` of `gradeV1` then skips both. -/
theorem ieee_averageV1_underflow_counterexample :
    tiny = fin false 1 (-1074) ∧ tiny.finite = true ∧ tiny.isZero = false ∧
    averageV1 [sampleOpr [tiny, tiny]] = some [zero, zero] ∧
    F64.lt zero zero = false := by
  decide

/-- C20, amended, at a cohort of three records with two assets each. -/
theorem ieee_averageV1_divisor_witness :
    ∃ avg, averageV1 [sampleOpr [ofNat 1, ofNat 2], sampleOpr [ofNat 3, F64.neg (ofNat 4)],
        sampleOpr [zero, ofNat 6]] = some avg ∧ avg.length = 2 ∧
      ∀ i, i < 2 →
        avg.getD i zero =
          F64.div (magnitudeSum [sampleOpr [ofNat 1, ofNat 2],
            sampleOpr [ofNat 3, F64.neg (ofNat 4)], sampleOpr [zero, ofNat 6]] i) (ofNat 2) ∧
        (meanMagnitude [sampleOpr [ofNat 1, ofNat 2], sampleOpr [ofNat 3, F64.neg (ofNat 4)],
            sampleOpr [zero, ofNat 6]]).getD i zero =
          F64.div (magnitudeSum [sampleOpr [ofNat 1, ofNat 2],
            sampleOpr [ofNat 3, F64.neg (ofNat 4)], sampleOpr [zero, ofNat 6]] i)
            (ofNat [sampleOpr [ofNat 1, ofNat 2], sampleOpr [ofNat 3, F64.neg (ofNat 4)],
              sampleOpr [zero, ofNat 6]].length) ∧
        ([sampleOpr [ofNat 1, ofNat 2], sampleOpr [ofNat 3, F64.neg (ofNat 4)],
            sampleOpr [zero, ofNat 6]].length = 2 ∨
          (magnitudeSum [sampleOpr [ofNat 1, ofNat 2], sampleOpr [ofNat 3, F64.neg (ofNat 4)],
            sampleOpr [zero, ofNat 6]] i).isZero = true →
          avg.getD i zero =
            (meanMagnitude [sampleOpr [ofNat 1, ofNat 2],
              sampleOpr [ofNat 3, F64.neg (ofNat 4)], sampleOpr [zero, ofNat 6]]).getD i zero) :=
  ieee_averageV1_divisor
    [sampleOpr [ofNat 1, ofNat 2], sampleOpr [ofNat 3, F64.neg (ofNat 4)],
      sampleOpr [zero, ofNat 6]] 2 (by decide) (by decide) (by decide)

/-- C20, as stated, fails in `float64`: for the cohort of `N = 2` records with `k = 3`
assets that all report `5e-324`, the sum at every position is `2 * 5e-324`, not 0, and
`N` is not `k`, yet `averageV1` returns the mean magnitude: the sum over 3 and the sum
over 2 both round to `5e-324`.  And the sum is a rounded one: for the two one-asset
records `1e16` and `1`, the result is `[1e16]`, not `1e16 + 1`. -/
theorem ieee_averageV1_divisor_counterexample :
    averageV1 [sampleOpr [tiny, tiny, tiny], sampleOpr [tiny, tiny, tiny]] =
      some [tiny, tiny, tiny] ∧
    meanMagnitude [sampleOpr [tiny, tiny, tiny], sampleOpr [tiny, tiny, tiny]] =
      [tiny, tiny, tiny] ∧
    [sampleOpr [tiny, tiny, tiny], sampleOpr [tiny, tiny, tiny]].length ≠ 3 ∧
    magnitudeSum [sampleOpr [tiny, tiny, tiny], sampleOpr [tiny, tiny, tiny]] 0 =
      fin false 2 (-1074) ∧
    (fin false 2 (-1074)).isZero = false ∧
    averageV1 [sampleOpr [ofDecimal false (10 ^ 16) 1], sampleOpr [ofNat 1]] =
      some [ofDecimal false (10 ^ 16) 1] := by
  decide

end IEEE

end Grader
